import Mathlib

/-!
Verification of the AI-provider orchestration core of the README-generator
repository: the `PerformanceMonitor` statistics store
(`src/lib/performance-monitor.ts`), the markdown post-processing function
(`AIReadmeGenerator.postProcessMarkdown`), and the failover loop
(`AIReadmeGenerator.generateReadme`) of `src/lib/ai-readme-generator.ts`.

Numbers that are JavaScript floating-point numbers in the source
(response times, success rates) are embedded as exact rationals `ℚ`;
`Date` values are embedded as integer millisecond timestamps `Int`.
Strings are embedded as `String` / `List Char`.
-/

set_option maxHeartbeats 1000000

namespace ReadmeGen

/-! ### PerformanceMonitor data model (performance-monitor.ts, lines 1-22) -/

/-- Embedding of the `PerformanceMetrics` interface.  `lastFailure` is an
optional millisecond timestamp; `averageResponseTime` is a rational. -/
structure PerformanceMetrics where
  provider : String
  requestCount : Nat
  successCount : Nat
  failureCount : Nat
  averageResponseTime : ℚ
  lastFailure : Option Int
  rateLimitHits : Nat
deriving DecidableEq

/-- Embedding of the `PerformanceEvent` interface. -/
structure PerformanceEvent where
  provider : String
  success : Bool
  responseTime : ℚ
  error : Option String
  timestamp : Int
deriving DecidableEq

/-- The monitor state: the `metrics` Map (insertion-ordered association list,
as a JS `Map`) and the `recentEvents` buffer. -/
structure PerformanceMonitor where
  metrics : List (String × PerformanceMetrics)
  recentEvents : List PerformanceEvent
deriving DecidableEq

/-- `maxEvents = 100` from line 22. -/
def maxEvents : Nat := 100

/-- A `new PerformanceMonitor()`: empty metrics map, empty event buffer. -/
def emptyMonitor : PerformanceMonitor := ⟨[], []⟩

/-- The default metrics record created on first event for a provider
(lines 31-38). -/
def defaultMetrics (p : String) : PerformanceMetrics :=
  { provider := p, requestCount := 0, successCount := 0, failureCount := 0,
    averageResponseTime := 0, lastFailure := none, rateLimitHits := 0 }

/-- `Map.get`: first entry with the given key. -/
def mlookup : List (String × PerformanceMetrics) → String → Option PerformanceMetrics
  | [], _ => none
  | (k, v) :: rest, p => if k = p then some v else mlookup rest p

/-- `Map.set`: replace the entry with the given key, else append at the end. -/
def mset : List (String × PerformanceMetrics) → String → PerformanceMetrics →
    List (String × PerformanceMetrics)
  | [], p, v => [(p, v)]
  | (k, w) :: rest, p, v =>
    if k = p then (k, v) :: rest else (k, w) :: mset rest p v

/-- `Map.delete`: remove the entry (entries) with the given key. -/
def mdelete : List (String × PerformanceMetrics) → String → List (String × PerformanceMetrics)
  | [], _ => []
  | (k, w) :: rest, p =>
    if k = p then mdelete rest p else (k, w) :: mdelete rest p

/-- Decides whether `needle` is a leading segment of `hay`
(JS `String.prototype.startsWith`, on char lists). -/
def leadsWith : List Char → List Char → Bool
  | [], _ => true
  | _ :: _, [] => false
  | c :: cs, d :: ds => c = d && leadsWith cs ds

/-- Decides whether `needle` occurs as a contiguous segment of `hay`
(JS `String.prototype.includes`, which is case-sensitive). -/
def containsSeg : List Char → List Char → Bool
  | [], needle => leadsWith needle []
  | c :: rest, needle => leadsWith needle (c :: rest) || containsSeg rest needle

/-- The rate-limit test of line 52:
`error?.includes('rate limit') || error?.includes('quota')`.
`String.prototype.includes` is case-sensitive. -/
def isRateLimitText : Option String → Bool
  | none => false
  | some s => containsSeg s.data "rate limit".data || containsSeg s.data "quota".data

/-- `PerformanceMonitor.recordEvent` (lines 27-67): update-or-create the
provider's metrics (increment counts, update the running average on success,
set `lastFailure` and possibly `rateLimitHits` on failure), then append to
`recentEvents`, shifting the oldest entry off when over capacity. -/
def recordEvent (mon : PerformanceMonitor) (event : PerformanceEvent) : PerformanceMonitor :=
  let current := (mlookup mon.metrics event.provider).getD (defaultMetrics event.provider)
  let c1 := { current with requestCount := current.requestCount + 1 }
  let c2 :=
    if event.success then
      { c1 with
        successCount := c1.successCount + 1,
        averageResponseTime :=
          (c1.averageResponseTime * ((c1.successCount + 1 : Nat) - 1 : ℚ) + event.responseTime) /
            ((c1.successCount + 1 : Nat) : ℚ) }
    else
      let cf := { c1 with failureCount := c1.failureCount + 1,
                          lastFailure := some event.timestamp }
      if isRateLimitText event.error then
        { cf with rateLimitHits := cf.rateLimitHits + 1 }
      else cf
  let newEvents := mon.recentEvents ++ [event]
  { metrics := mset mon.metrics event.provider c2,
    recentEvents := if maxEvents < newEvents.length then newEvents.tail else newEvents }

/-- `PerformanceMonitor.getSuccessRate` (lines 86-91). -/
def getSuccessRate (mon : PerformanceMonitor) (p : String) : ℚ :=
  match mlookup mon.metrics p with
  | none => 0
  | some m => if m.requestCount = 0 then 0 else (m.successCount : ℚ) / (m.requestCount : ℚ)

/-- `PerformanceMonitor.shouldAvoidProvider` (lines 96-114), with `now` the
value of `Date.now()` at the evaluation instant. -/
def shouldAvoidProvider (now : Int) (mon : PerformanceMonitor) (p : String) : Bool :=
  match mlookup mon.metrics p with
  | none => false
  | some m =>
    if 5 ≤ m.requestCount ∧ getSuccessRate mon p < 1/2 then true
    else if 0 < m.rateLimitHits then
      match m.lastFailure with
      | some t => decide (now - 5 * 60 * 1000 < t)
      | none => false
    else false

/-- The sort comparator of `getBestProvider` (lines 122-132), turned into the
total boolean ordering it induces: `a` sorts no later than `b` iff `a` has
the strictly higher success rate, or equal rates and
`a.averageResponseTime ≤ b.averageResponseTime`. -/
def leBest (mon : PerformanceMonitor) (a b : PerformanceMetrics) : Bool :=
  if getSuccessRate mon a.provider ≠ getSuccessRate mon b.provider then
    decide (getSuccessRate mon b.provider < getSuccessRate mon a.provider)
  else
    decide (a.averageResponseTime ≤ b.averageResponseTime)

/-- The `Array.from(this.metrics.values()).filter(...)` step of
`getBestProvider` (lines 120-121). -/
def bestCandidates (now : Int) (mon : PerformanceMonitor) : List PerformanceMetrics :=
  (mon.metrics.map Prod.snd).filter (fun m => !shouldAvoidProvider now mon m.provider)

/-- `PerformanceMonitor.getBestProvider` (lines 119-135): filter out avoided
providers, stable-sort by the comparator, take the first element. -/
def getBestProvider (now : Int) (mon : PerformanceMonitor) : Option String :=
  match ((bestCandidates now mon).mergeSort (leBest mon)).head? with
  | some m => some m.provider
  | none => none

/-- `PerformanceMonitor.resetProviderMetrics` (lines 147-150). -/
def resetProviderMetrics (mon : PerformanceMonitor) (p : String) : PerformanceMonitor :=
  { metrics := mdelete mon.metrics p,
    recentEvents := mon.recentEvents.filter (fun e => e.provider ≠ p) }

/-- Folding a sequence of events into a fresh monitor. -/
def runEvents (events : List PerformanceEvent) : PerformanceMonitor :=
  events.foldl recordEvent emptyMonitor

/-! ### Association-list lemmas -/

theorem mlookup_mset_self (l : List (String × PerformanceMetrics)) (p : String)
    (v : PerformanceMetrics) : mlookup (mset l p v) p = some v := by
  induction l with
  | nil => simp [mset, mlookup]
  | cons kv rest ih =>
    obtain ⟨k, w⟩ := kv
    by_cases hk : k = p <;> simp [mset, hk, mlookup, ih]

theorem mlookup_mset_other (l : List (String × PerformanceMetrics)) (p q : String)
    (v : PerformanceMetrics) (h : q ≠ p) : mlookup (mset l p v) q = mlookup l q := by
  have hpq : ¬ p = q := fun hh => h hh.symm
  induction l with
  | nil => simp [mset, mlookup, hpq]
  | cons kv rest ih =>
    obtain ⟨k, w⟩ := kv
    by_cases hk : k = p
    · subst hk
      simp [mset, mlookup, hpq]
    · simp [mset, hk, mlookup, ih]

theorem mlookup_mdelete_other (l : List (String × PerformanceMetrics)) (p q : String)
    (h : q ≠ p) : mlookup (mdelete l p) q = mlookup l q := by
  have hpq : ¬ p = q := fun hh => h hh.symm
  induction l with
  | nil => simp [mdelete]
  | cons kv rest ih =>
    obtain ⟨k, w⟩ := kv
    by_cases hk : k = p
    · subst hk
      simp [mdelete, mlookup, hpq, ih]
    · simp [mdelete, hk, mlookup, ih]

/-! ### recordEvent lemmas -/

/-- Convenience accessor: the metrics a provider currently has (the created-on
demand default if untracked), as in lines 31-38. -/
def currentMetrics (mon : PerformanceMonitor) (p : String) : PerformanceMetrics :=
  (mlookup mon.metrics p).getD (defaultMetrics p)

theorem recordEvent_rateLimitHits (mon : PerformanceMonitor) (e : PerformanceEvent) :
    (currentMetrics (recordEvent mon e) e.provider).rateLimitHits =
      (currentMetrics mon e.provider).rateLimitHits +
        (if e.success = false ∧ isRateLimitText e.error = true then 1 else 0) := by
  simp only [currentMetrics, recordEvent, mlookup_mset_self, Option.getD_some]
  cases hs : e.success with
  | true => simp [hs]
  | false =>
    cases hrl : isRateLimitText e.error with
    | true => simp [hs, hrl]
    | false => simp [hs, hrl]

/-- The metrics-map update performed by `recordEvent` touches only the event's
own provider. -/
theorem recordEvent_frame (mon : PerformanceMonitor) (e : PerformanceEvent) (q : String)
    (h : q ≠ e.provider) : mlookup (recordEvent mon e).metrics q = mlookup mon.metrics q := by
  simp only [recordEvent]
  exact mlookup_mset_other _ _ _ _ h

/-! ### C7: the count invariant -/

/-- The invariant of the spec: every tracked provider's counters satisfy
`requestCount = successCount + failureCount`. -/
def metricsInvariant (mon : PerformanceMonitor) : Prop :=
  ∀ p m, mlookup mon.metrics p = some m → m.requestCount = m.successCount + m.failureCount

theorem metricsInvariant_empty : metricsInvariant emptyMonitor := by
  intro p m hm
  simp [emptyMonitor, mlookup] at hm

theorem metricsInvariant_recordEvent (mon : PerformanceMonitor) (e : PerformanceEvent)
    (inv : metricsInvariant mon) : metricsInvariant (recordEvent mon e) := by
  intro p m hm
  by_cases hp : p = e.provider
  · subst hp
    have hold : (currentMetrics mon e.provider).requestCount =
        (currentMetrics mon e.provider).successCount +
          (currentMetrics mon e.provider).failureCount := by
      unfold currentMetrics
      cases h0 : mlookup mon.metrics e.provider with
      | none => simp [defaultMetrics]
      | some m0 => simpa using inv e.provider m0 h0
    simp only [recordEvent, mlookup_mset_self, Option.some_inj] at hm
    subst hm
    cases hs : e.success with
    | true => simp [hs, currentMetrics] at hold ⊢; omega
    | false =>
      cases hrl : isRateLimitText e.error with
      | true => simp [hs, hrl, currentMetrics] at hold ⊢; omega
      | false => simp [hs, hrl, currentMetrics] at hold ⊢; omega
  · rw [recordEvent_frame mon e p hp] at hm
    exact inv p m hm

theorem metricsInvariant_foldl (events : List PerformanceEvent) :
    ∀ mon, metricsInvariant mon → metricsInvariant (events.foldl recordEvent mon) := by
  induction events with
  | nil => intro mon inv; simpa using inv
  | cons e rest ih =>
    intro mon inv
    simpa using ih (recordEvent mon e) (metricsInvariant_recordEvent mon e inv)

/-- C7 (confirmed).  For every sequence of recorded events, after every
`recordEvent` call each tracked provider's metrics satisfy
`requestCount = successCount + failureCount`; the counts are `Nat`s, hence
non-negative by construction. -/
theorem C7_count_invariant (events : List PerformanceEvent) (p : String)
    (m : PerformanceMetrics) (hm : mlookup (runEvents events).metrics p = some m) :
    m.requestCount = m.successCount + m.failureCount :=
  metricsInvariant_foldl events emptyMonitor metricsInvariant_empty p m hm

/-- Concrete instantiation of C7 on a one-event history. -/
theorem C7_count_invariant_witness :
    mlookup (runEvents [⟨"P", false, 0, none, 0⟩]).metrics "P" =
        some ⟨"P", 1, 0, 1, 0, some 0, 0⟩ ∧
      (1 : Nat) = 0 + 1 := by
  have h : mlookup (runEvents [⟨"P", false, 0, none, 0⟩]).metrics "P" =
      some ⟨"P", 1, 0, 1, 0, some 0, 0⟩ := by
    simp [runEvents, emptyMonitor, recordEvent, mlookup, mset, defaultMetrics,
      isRateLimitText, containsSeg, leadsWith, maxEvents]
  exact ⟨h, C7_count_invariant [⟨"P", false, 0, none, 0⟩] "P" ⟨"P", 1, 0, 1, 0, some 0, 0⟩ h⟩

/-! ### C5: the avoidance policy -/

/-- C5 (confirmed).  `shouldAvoidProvider` returns true iff the provider is
tracked with metrics `m` and EITHER (a) `m.requestCount ≥ 5` and the success
rate is `< 0.5`, OR (b) `m.rateLimitHits > 0` and `m.lastFailure` is set and
lies within the 5 minutes before the evaluation instant `now` (strictly after
`now - 5*60*1000` ms); an untracked provider is never avoided. -/
theorem C5_shouldAvoid_characterization (now : Int) (mon : PerformanceMonitor) (p : String) :
    (shouldAvoidProvider now mon p = true ↔
      ∃ m, mlookup mon.metrics p = some m ∧
        ((5 ≤ m.requestCount ∧ getSuccessRate mon p < 1/2) ∨
         (0 < m.rateLimitHits ∧ ∃ t, m.lastFailure = some t ∧ now - 5 * 60 * 1000 < t))) ∧
    (mlookup mon.metrics p = none → shouldAvoidProvider now mon p = false) := by
  cases h : mlookup mon.metrics p with
  | none => simp [shouldAvoidProvider, h]
  | some m =>
    refine ⟨?_, by simp [h]⟩
    simp only [shouldAvoidProvider, h]
    by_cases h1 : 5 ≤ m.requestCount ∧ getSuccessRate mon p < 1/2
    · rw [if_pos h1]
      exact iff_of_true rfl ⟨m, rfl, Or.inl h1⟩
    · rw [if_neg h1]
      by_cases h2 : 0 < m.rateLimitHits
      · rw [if_pos h2]
        constructor
        · intro hmatch
          refine ⟨m, rfl, Or.inr ⟨h2, ?_⟩⟩
          cases hlf : m.lastFailure with
          | none => rw [hlf] at hmatch; exact (Bool.false_ne_true hmatch).elim
          | some t =>
            rw [hlf] at hmatch
            exact ⟨t, rfl, by simpa using hmatch⟩
        · rintro ⟨m', hm', hcase⟩
          obtain rfl : m = m' := Option.some.inj hm'
          rcases hcase with hcaseA | ⟨_, t, hlf, ht⟩
          · exact absurd hcaseA h1
          · rw [hlf]
            simpa using ht
      · rw [if_neg h2]
        constructor
        · intro hfalse
          exact (Bool.false_ne_true hfalse).elim
        · rintro ⟨m', hm', hcase⟩
          obtain rfl : m = m' := Option.some.inj hm'
          rcases hcase with hcaseA | ⟨hhits, _⟩
          · exact absurd hcaseA h1
          · exact absurd hhits h2

/-- A metrics record with 5 requests and 0 successes. -/
def metricA : PerformanceMetrics :=
  { provider := "A", requestCount := 5, successCount := 0, failureCount := 5,
    averageResponseTime := 0, lastFailure := none, rateLimitHits := 0 }

/-- A concrete monitor: provider "A" tracked with 5 requests, 0 successes. -/
def avoidMonA : PerformanceMonitor := ⟨[("A", metricA)], []⟩

theorem avoidMonA_rate : getSuccessRate avoidMonA "A" < 1/2 := by
  norm_num [getSuccessRate, avoidMonA, mlookup, metricA]

/-- Concrete instantiation of C5: provider "A" with 5 requests and 0 successes
is avoided. -/
theorem C5_shouldAvoid_witness : shouldAvoidProvider 0 avoidMonA "A" = true :=
  (C5_shouldAvoid_characterization 0 avoidMonA "A").1.mpr
    ⟨metricA, rfl, Or.inl ⟨by decide, avoidMonA_rate⟩⟩

/-! ### C10: resetProviderMetrics frame property -/

theorem filter_filter_provider (l : List PerformanceEvent) (p q : String) (h : q ≠ p) :
    (l.filter (fun e => e.provider ≠ p)).filter (fun e => e.provider = q) =
      l.filter (fun e => e.provider = q) := by
  rw [List.filter_filter]
  apply List.filter_congr
  intro a _
  by_cases hq : a.provider = q
  · have hnp : ¬ a.provider = p := fun hh => h (hq.symm.trans hh)
    simp [hq, hnp, h]
  · simp [hq]

/-- C10 (confirmed).  `resetProviderMetrics p` removes only provider `p`'s
state: any other provider `q`'s metrics entry and buffered recent events are
unchanged. -/
theorem C10_reset_frame (mon : PerformanceMonitor) (p q : String) (h : q ≠ p) :
    mlookup (resetProviderMetrics mon p).metrics q = mlookup mon.metrics q ∧
    (resetProviderMetrics mon p).recentEvents.filter (fun e => e.provider = q) =
      mon.recentEvents.filter (fun e => e.provider = q) := by
  refine ⟨mlookup_mdelete_other mon.metrics p q h, ?_⟩
  simp only [resetProviderMetrics]
  exact filter_filter_provider mon.recentEvents p q h

/-- Concrete instantiation of C10: resetting "A" leaves "B"'s entry and
events intact. -/
theorem C10_reset_frame_witness :
    mlookup (resetProviderMetrics
        ⟨[("A", defaultMetrics "A"), ("B", defaultMetrics "B")],
         [⟨"B", true, 1, none, 0⟩]⟩ "A").metrics "B" =
      mlookup (⟨[("A", defaultMetrics "A"), ("B", defaultMetrics "B")],
         [⟨"B", true, 1, none, 0⟩]⟩ : PerformanceMonitor).metrics "B" :=
  (C10_reset_frame ⟨[("A", defaultMetrics "A"), ("B", defaultMetrics "B")],
      [⟨"B", true, 1, none, 0⟩]⟩ "A" "B" (by decide)).1

/-! ### C6: getBestProvider -/

theorem bestCandidates_mem (now : Int) (mon : PerformanceMonitor) (m : PerformanceMetrics) :
    m ∈ bestCandidates now mon ↔
      m ∈ mon.metrics.map Prod.snd ∧ shouldAvoidProvider now mon m.provider = false := by
  simp [bestCandidates, List.mem_filter]

theorem leBest_total (mon : PerformanceMonitor) (a b : PerformanceMetrics) :
    (leBest mon a b || leBest mon b a) = true := by
  unfold leBest
  by_cases hr : getSuccessRate mon a.provider = getSuccessRate mon b.provider
  · rw [if_neg (not_not_intro hr), if_neg (not_not_intro hr.symm)]
    simp only [Bool.or_eq_true, decide_eq_true_eq]
    exact le_total _ _
  · have hr' : getSuccessRate mon b.provider ≠ getSuccessRate mon a.provider :=
      fun hh => hr hh.symm
    rw [if_pos hr, if_pos hr']
    simp only [Bool.or_eq_true, decide_eq_true_eq]
    rcases lt_or_gt_of_ne hr with hlt | hgt
    · exact Or.inr hlt
    · exact Or.inl hgt

theorem leBest_trans (mon : PerformanceMonitor) (a b c : PerformanceMetrics)
    (hab : leBest mon a b = true) (hbc : leBest mon b c = true) : leBest mon a c = true := by
  unfold leBest at hab hbc ⊢
  by_cases h1 : getSuccessRate mon a.provider = getSuccessRate mon b.provider
  · rw [if_neg (not_not_intro h1)] at hab
    by_cases h2 : getSuccessRate mon b.provider = getSuccessRate mon c.provider
    · rw [if_neg (not_not_intro h2)] at hbc
      rw [if_neg (not_not_intro (h1.trans h2))]
      simp only [decide_eq_true_eq] at hab hbc ⊢
      exact le_trans hab hbc
    · have hac : getSuccessRate mon a.provider ≠ getSuccessRate mon c.provider :=
        fun hh => h2 (h1.symm.trans hh)
      rw [if_pos hac]
      rw [if_pos h2] at hbc
      simp only [decide_eq_true_eq] at hbc ⊢
      rw [h1]
      exact hbc
  · rw [if_pos h1] at hab
    simp only [decide_eq_true_eq] at hab
    by_cases h2 : getSuccessRate mon b.provider = getSuccessRate mon c.provider
    · have hac : getSuccessRate mon a.provider ≠ getSuccessRate mon c.provider :=
        fun hh => h1 (hh.trans h2.symm)
      rw [if_pos hac]
      simp only [decide_eq_true_eq]
      rw [← h2]
      exact hab
    · rw [if_pos h2] at hbc
      simp only [decide_eq_true_eq] at hbc
      have hca := lt_trans hbc hab
      have hac : getSuccessRate mon a.provider ≠ getSuccessRate mon c.provider :=
        fun hh => absurd hh.symm (ne_of_lt hca)
      rw [if_pos hac]
      simp only [decide_eq_true_eq]
      exact hca

/-- C6 (confirmed).  `getBestProvider` returns none iff every tracked
provider is currently avoided (vacuously, iff none is tracked); and when it
returns `some p`, `p` names a tracked, non-avoided metrics record whose
success rate is maximal among non-avoided tracked providers, with ties
broken by lower `averageResponseTime`. -/
theorem C6_getBestProvider_spec (now : Int) (mon : PerformanceMonitor) :
    (getBestProvider now mon = none ↔
      ∀ m ∈ mon.metrics.map Prod.snd, shouldAvoidProvider now mon m.provider = true) ∧
    (∀ p, getBestProvider now mon = some p →
      ∃ m ∈ mon.metrics.map Prod.snd,
        shouldAvoidProvider now mon m.provider = false ∧ m.provider = p ∧
        ∀ m' ∈ mon.metrics.map Prod.snd, shouldAvoidProvider now mon m'.provider = false →
          (getSuccessRate mon m'.provider < getSuccessRate mon m.provider ∨
           (getSuccessRate mon m'.provider = getSuccessRate mon m.provider ∧
            m.averageResponseTime ≤ m'.averageResponseTime))) := by
  have hperm := List.mergeSort_perm (bestCandidates now mon) (leBest mon)
  constructor
  · constructor
    · intro hnone m hm
      by_contra hav
      have hfalse : shouldAvoidProvider now mon m.provider = false := by
        cases hb : shouldAvoidProvider now mon m.provider
        · rfl
        · exact absurd hb hav
      have hmemc : m ∈ bestCandidates now mon := (bestCandidates_mem now mon m).mpr ⟨hm, hfalse⟩
      have hmems : m ∈ (bestCandidates now mon).mergeSort (leBest mon) :=
        hperm.mem_iff.mpr hmemc
      unfold getBestProvider at hnone
      cases hs : (bestCandidates now mon).mergeSort (leBest mon) with
      | nil => rw [hs] at hmems; cases hmems
      | cons a tl => rw [hs] at hnone; simp at hnone
    · intro hall
      have hcnil : bestCandidates now mon = [] := by
        apply List.eq_nil_iff_forall_not_mem.mpr
        intro m hmemc
        obtain ⟨hm, hfalse⟩ := (bestCandidates_mem now mon m).mp hmemc
        rw [hall m hm] at hfalse
        cases hfalse
      unfold getBestProvider
      rw [hcnil]
      simp
  · intro p hp
    unfold getBestProvider at hp
    cases hs : (bestCandidates now mon).mergeSort (leBest mon) with
    | nil => rw [hs] at hp; simp at hp
    | cons m0 tl =>
      rw [hs] at hp
      simp only [List.head?_cons, Option.some_inj] at hp
      have hm0s : m0 ∈ (bestCandidates now mon).mergeSort (leBest mon) := by
        rw [hs]; exact List.mem_cons_self m0 tl
      have hm0in : m0 ∈ bestCandidates now mon := hperm.mem_iff.mp hm0s
      obtain ⟨hm0map, hm0av⟩ := (bestCandidates_mem now mon m0).mp hm0in
      have hsorted := List.sorted_mergeSort (leBest_trans mon) (leBest_total mon)
        (bestCandidates now mon)
      rw [hs] at hsorted
      have hpair : ∀ y ∈ tl, leBest mon m0 y = true :=
        (List.pairwise_cons.mp hsorted).1
      refine ⟨m0, hm0map, hm0av, hp, ?_⟩
      intro m' hm'map hm'av
      have hm'c : m' ∈ bestCandidates now mon := (bestCandidates_mem now mon m').mpr ⟨hm'map, hm'av⟩
      have hm's : m' ∈ m0 :: tl := by
        rw [← hs]; exact hperm.mem_iff.mpr hm'c
      rcases List.mem_cons.mp hm's with rfl | hm'tl
      · exact Or.inr ⟨rfl, le_refl _⟩
      · have hle := hpair m' hm'tl
        unfold leBest at hle
        by_cases hr : getSuccessRate mon m0.provider = getSuccessRate mon m'.provider
        · simp [hr] at hle
          exact Or.inr ⟨hr.symm, hle⟩
        · simp [hr] at hle
          exact Or.inl hle

/-- Shared helper: in `avoidMonA` the single tracked provider "A" is
avoided. -/
theorem avoidMonA_avoided : shouldAvoidProvider 0 avoidMonA "A" = true := by
  norm_num [shouldAvoidProvider, avoidMonA, mlookup, getSuccessRate, metricA]

/-- Concrete instantiation of C6: when the only tracked provider is avoided,
`getBestProvider` returns none. -/
theorem C6_getBestProvider_witness : getBestProvider 0 avoidMonA = none := by
  apply (C6_getBestProvider_spec 0 avoidMonA).1.mpr
  intro m hm
  have hmA : m = metricA := by
    simpa [avoidMonA] using hm
  rw [hmA]
  exact avoidMonA_avoided

/-! ### postProcessMarkdown (ai-readme-generator.ts, lines 356-375)

The function applies, in order:
1. `.replace(/^```markdown\n/, '')` — strip a leading fence opener;
2. `.replace(/\n```$/, '')` — strip a trailing fence closer;
3. `.trim()`;
4. `.replace(/\n#{1,6}\s/g, '\n\n$&')` — insert a blank line before headings;
5. `.replace(/\n{4,}/g, '\n\n\n')` — collapse runs of 4+ newlines to three;
6. prepend `"# "` unless the text starts with `'#'`.
-/

/-- The characters matched by `\s` in a JS regular expression — the same set
`String.prototype.trim` removes (WhiteSpace ∪ LineTerminator). -/
def isJsSpace (c : Char) : Bool :=
  c = ' ' || c = '\t' || c = '\n' || c = '\r' ||
  c = Char.ofNat 0x0B || c = Char.ofNat 0x0C ||
  c = Char.ofNat 0xA0 || c = Char.ofNat 0x1680 ||
  (Char.ofNat 0x2000 ≤ c && c ≤ Char.ofNat 0x200A) ||
  c = Char.ofNat 0x2028 || c = Char.ofNat 0x2029 ||
  c = Char.ofNat 0x202F || c = Char.ofNat 0x205F ||
  c = Char.ofNat 0x3000 || c = Char.ofNat 0xFEFF

/-- The backtick character. -/
def btick : Char := Char.ofNat 96

/-- The 12 characters of the fence opener matched by the first replace. -/
def fenceOpen : List Char :=
  [btick, btick, btick, 'm', 'a', 'r', 'k', 'd', 'o', 'w', 'n', '\n']

/-- The 4 characters of the fence closer matched by the second replace. -/
def fenceClose : List Char := ['\n', btick, btick, btick]

/-- First replace: drop a leading fence opener (anchored `^`, first
occurrence only). -/
def stripFenceOpen (l : List Char) : List Char :=
  if l.take 12 = fenceOpen then l.drop 12 else l

/-- Second replace: drop a trailing fence closer (`$` without the `m` flag
anchors at the end of the input). -/
def stripFenceClose (l : List Char) : List Char :=
  if 4 ≤ l.length ∧ l.drop (l.length - 4) = fenceClose then l.take (l.length - 4) else l

/-- `String.prototype.trim`. -/
def trimList (l : List Char) : List Char :=
  ((l.dropWhile isJsSpace).reverse.dropWhile isJsSpace).reverse

/-- Number of leading `'#'` characters. -/
def leadHashes : List Char → Nat
  | [] => 0
  | c :: r => if c = '#' then leadHashes r + 1 else 0

/-- How the regex `\n#{1,6}\s` matches at a `'\n'` whose tail is `r`: the
greedy `#{1,6}` with backtracking succeeds iff the run of hashes after the
newline has length `1..6` and is followed by a `\s` character.  Returns the
hash count, the matched `\s` character and the remainder. -/
def headMatch (r : List Char) : Option (Nat × Char × List Char) :=
  if 1 ≤ leadHashes r ∧ leadHashes r ≤ 6 then
    match r.drop (leadHashes r) with
    | s :: rest => if isJsSpace s then some (leadHashes r, s, rest) else none
    | [] => none
  else none

theorem headMatch_rest_len {r : List Char} {j : Nat} {s : Char} {rest : List Char}
    (h : headMatch r = some (j, s, rest)) : rest.length < r.length := by
  unfold headMatch at h
  split at h
  · split at h
    · rename_i heq
      split at h
      · cases h
        have hlen := congrArg List.length heq
        simp [List.length_drop] at hlen
        omega
      · exact absurd h (by simp)
    · exact absurd h (by simp)
  · exact absurd h (by simp)

/-- The global replace `.replace(/\n#{1,6}\s/g, '\n\n$&')` as a left-to-right
scan: at each `'\n'` the regex is tried; on a match the replacement
`\n\n` + match is emitted and the scan resumes after the match. -/
def IB : List Char → List Char
  | [] => []
  | c :: r =>
    if c = '\n' then
      match hm : headMatch r with
      | some (j, s, rest) =>
          '\n' :: '\n' :: '\n' :: (List.replicate j '#' ++ s :: IB rest)
      | none => '\n' :: IB r
    else c :: IB r
termination_by l => l.length
decreasing_by
  · have := headMatch_rest_len hm
    simp only [List.length_cons]
    omega
  · simp
  · simp

/-- The emitted form of a pending run of `k` newlines after the collapse
step: runs of 4 or more become exactly 3. -/
def runOut (k : Nat) : List Char :=
  if 4 ≤ k then List.replicate 3 '\n' else List.replicate k '\n'

/-- The global replace `.replace(/\n{4,}/g, '\n\n\n')` as a scan with a
pending-newline counter (leftmost-greedy matching consumes every maximal run
of 4+ newlines whole). -/
def CLa : Nat → List Char → List Char
  | k, [] => runOut k
  | k, c :: r => if c = '\n' then CLa (k + 1) r else runOut k ++ c :: CLa 0 r

/-- Step 5 of the pipeline. -/
def collapseRuns (l : List Char) : List Char := CLa 0 l

/-- Step 6: prepend `"# "` unless the text starts with `'#'`. -/
def ensureTitle (l : List Char) : List Char :=
  if l.head? = some '#' then l else '#' :: ' ' :: l

/-- `postProcessMarkdown` on char lists: the six steps in source order. -/
def postProcessList (l : List Char) : List Char :=
  ensureTitle (collapseRuns (IB (trimList (stripFenceClose (stripFenceOpen l)))))

/-- `AIReadmeGenerator.postProcessMarkdown` (lines 356-375). -/
def postProcessMarkdown (s : String) : String :=
  String.mk (postProcessList s.data)

/-- The fusion of steps 4 and 5 (`CLa k ∘ IB`) into a single scan, used to
reason about the composite. -/
def P : Nat → List Char → List Char
  | k, [] => runOut k
  | k, c :: r =>
    if c = '\n' then
      match hm : headMatch r with
      | some (j, s, rest) =>
          List.replicate 3 '\n' ++ List.replicate j '#' ++
            (if s = '\n' then P 1 rest else s :: P 0 rest)
      | none => P (k + 1) r
    else runOut k ++ c :: P 0 r
termination_by _ l => l.length
decreasing_by
  · have := headMatch_rest_len hm
    simp only [List.length_cons]
    omega
  · have := headMatch_rest_len hm
    simp only [List.length_cons]
    omega
  · simp
  · simp

/-! ### Unfolding lemmas for the scans -/

theorem IB_nil : IB [] = [] := by
  rw [IB]

theorem IB_cons_match {r : List Char} {j : Nat} {s : Char} {rest : List Char}
    (h : headMatch r = some (j, s, rest)) :
    IB ('\n' :: r) = '\n' :: '\n' :: '\n' :: (List.replicate j '#' ++ s :: IB rest) := by
  rw [IB, if_pos rfl]
  split
  · rename_i j' s' rest' hm
    rw [h] at hm
    simp only [Option.some_inj, Prod.mk.injEq] at hm
    obtain ⟨rfl, rfl, rfl⟩ := hm
    rfl
  · rename_i hm
    rw [h] at hm
    simp at hm

theorem IB_cons_none {r : List Char} (h : headMatch r = none) :
    IB ('\n' :: r) = '\n' :: IB r := by
  rw [IB, if_pos rfl]
  split
  · rename_i j' s' rest' hm
    rw [h] at hm
    simp at hm
  · rfl

theorem IB_cons_other {c : Char} {r : List Char} (hc : c ≠ '\n') :
    IB (c :: r) = c :: IB r := by
  rw [IB]
  simp [hc]

theorem P_nil (k : Nat) : P k [] = runOut k := by
  rw [P]

theorem P_cons_match (k : Nat) {r : List Char} {j : Nat} {s : Char} {rest : List Char}
    (h : headMatch r = some (j, s, rest)) :
    P k ('\n' :: r) = List.replicate 3 '\n' ++ List.replicate j '#' ++
      (if s = '\n' then P 1 rest else s :: P 0 rest) := by
  rw [P, if_pos rfl]
  split
  · rename_i j' s' rest' hm
    rw [h] at hm
    simp only [Option.some_inj, Prod.mk.injEq] at hm
    obtain ⟨rfl, rfl, rfl⟩ := hm
    simp
  · rename_i hm
    rw [h] at hm
    simp at hm

theorem P_cons_none (k : Nat) {r : List Char} (h : headMatch r = none) :
    P k ('\n' :: r) = P (k + 1) r := by
  rw [P, if_pos rfl]
  split
  · rename_i j' s' rest' hm
    rw [h] at hm
    simp at hm
  · rfl

theorem P_cons_other (k : Nat) {c : Char} (r : List Char) (hc : c ≠ '\n') :
    P k (c :: r) = runOut k ++ c :: P 0 r := by
  rw [P]
  simp [hc]

theorem CLa_cons_newline (k : Nat) (r : List Char) : CLa k ('\n' :: r) = CLa (k + 1) r := by
  simp [CLa]

theorem CLa_cons_other (k : Nat) {c : Char} (r : List Char) (hc : c ≠ '\n') :
    CLa k (c :: r) = runOut k ++ c :: CLa 0 r := by
  simp [CLa, hc]

/-! ### runOut, leadHashes and headMatch facts -/

theorem runOut_zero : runOut 0 = [] := by
  simp [runOut]

theorem runOut_small {k : Nat} (h : k ≤ 3) : runOut k = List.replicate k '\n' := by
  unfold runOut
  rw [if_neg (by omega)]

theorem runOut_add3 (k : Nat) : runOut (k + 3) = List.replicate 3 '\n' := by
  unfold runOut
  split
  · rfl
  · rename_i h
    have hk : k = 0 := by omega
    subst hk
    rfl

theorem runOut_eq_min (k : Nat) : runOut k = List.replicate (min k 3) '\n' := by
  unfold runOut
  split
  · rename_i h
    rw [Nat.min_eq_right (by omega)]
  · rename_i h
    rw [Nat.min_eq_left (by omega)]

theorem leadHashes_hash (w : List Char) : leadHashes ('#' :: w) = leadHashes w + 1 := by
  simp [leadHashes]

theorem leadHashes_nonhash {c : Char} (w : List Char) (hc : c ≠ '#') :
    leadHashes (c :: w) = 0 := by
  simp [leadHashes, hc]

theorem leadHashes_take (r : List Char) :
    List.take (leadHashes r) r = List.replicate (leadHashes r) '#' := by
  induction r with
  | nil => simp [leadHashes]
  | cons c w ih =>
    by_cases hc : c = '#'
    · subst hc
      simp [leadHashes, List.take_succ_cons, ih, List.replicate_succ]
    · simp [leadHashes, hc]

theorem leadHashes_rep_append (i : Nat) (w : List Char) (hw : leadHashes w = 0) :
    leadHashes (List.replicate i '#' ++ w) = i := by
  induction i with
  | zero => simpa using hw
  | succ i ih => simp [List.replicate_succ, leadHashes_hash, ih]

theorem drop_leadHashes (r : List Char) : leadHashes (List.drop (leadHashes r) r) = 0 := by
  induction r with
  | nil => simp [leadHashes]
  | cons c w ih =>
    by_cases hc : c = '#'
    · subst hc
      simpa [leadHashes_hash, List.drop_succ_cons] using ih
    · simp [leadHashes_nonhash _ hc]

theorem headMatch_nil : headMatch [] = none := by
  simp [headMatch, leadHashes]

theorem headMatch_of_leadHashes_zero {r : List Char} (h : leadHashes r = 0) :
    headMatch r = none := by
  unfold headMatch
  rw [if_neg (by omega)]

theorem headMatch_newline (w : List Char) : headMatch ('\n' :: w) = none :=
  headMatch_of_leadHashes_zero (leadHashes_nonhash w (by decide))

theorem headMatch_nonhash {c : Char} (w : List Char) (hc : c ≠ '#') :
    headMatch (c :: w) = none :=
  headMatch_of_leadHashes_zero (leadHashes_nonhash w hc)

theorem headMatch_some_elim {r : List Char} {j : Nat} {s : Char} {rest : List Char}
    (h : headMatch r = some (j, s, rest)) :
    1 ≤ j ∧ j ≤ 6 ∧ isJsSpace s = true ∧ r = List.replicate j '#' ++ s :: rest := by
  unfold headMatch at h
  split at h
  · rename_i hcond
    split at h
    · rename_i s' rest' heq
      split at h
      · rename_i hs
        simp only [Option.some_inj, Prod.mk.injEq] at h
        obtain ⟨rfl, rfl, rfl⟩ := h
        refine ⟨hcond.1, hcond.2, hs, ?_⟩
        conv_lhs => rw [← List.take_append_drop (leadHashes r) r]
        rw [leadHashes_take, heq]
      · simp at h
    · simp at h
  · simp at h

theorem headMatch_rep_cons {j : Nat} {d : Char} (w : List Char) (hd : d ≠ '#') :
    headMatch (List.replicate j '#' ++ d :: w) =
      if 1 ≤ j ∧ j ≤ 6 ∧ isJsSpace d = true then some (j, d, w) else none := by
  have hlh : leadHashes (List.replicate j '#' ++ d :: w) = j :=
    leadHashes_rep_append j _ (leadHashes_nonhash _ hd)
  have hdrop : List.drop j (List.replicate j '#' ++ d :: w) = d :: w := by
    have hdl := List.drop_left (List.replicate j '#') (d :: w)
    rwa [List.length_replicate] at hdl
  unfold headMatch
  rw [hlh, hdrop]
  by_cases h16 : 1 ≤ j ∧ j ≤ 6
  · rw [if_pos h16]
    by_cases hs : isJsSpace d = true
    · simp only [if_pos hs]
      rw [if_pos ⟨h16.1, h16.2, hs⟩]
    · have hs' : isJsSpace d = false := by
        cases hb : isJsSpace d
        · rfl
        · exact absurd hb hs
      simp only [hs', Bool.false_eq_true, if_false]
      rw [if_neg (fun hh => hh.2.2)]
  · rw [if_neg h16, if_neg (fun hh => h16 ⟨hh.1, hh.2.1⟩)]

theorem headMatch_rep_nil (j : Nat) : headMatch (List.replicate j '#') = none := by
  have hlh : leadHashes (List.replicate j '#') = j := by
    simpa using leadHashes_rep_append j [] (by simp [leadHashes])
  unfold headMatch
  rw [hlh]
  split
  · have hdrop : List.drop j (List.replicate j '#') = [] := by
      simp
    rw [hdrop]
  · rfl

/-! ### Basic facts about the fused scan `P` -/

theorem P_hashes (i : Nat) (w : List Char) :
    P 0 (List.replicate i '#' ++ w) = List.replicate i '#' ++ P 0 w := by
  induction i with
  | zero => simp
  | succ i ih =>
    rw [List.replicate_succ, List.cons_append, P_cons_other 0 _ (by decide), runOut_zero, ih]
    simp

theorem P_replicate_newline (m : Nat) : ∀ a : Nat,
    P a (List.replicate m '\n') = runOut (a + m) := by
  induction m with
  | zero => intro a; simp [P_nil]
  | succ m ih =>
    intro a
    have hnone : headMatch (List.replicate m '\n') = none := by
      cases m with
      | zero => simpa using headMatch_nil
      | succ m' => rw [List.replicate_succ]; exact headMatch_newline _
    rw [List.replicate_succ, P_cons_none a hnone, ih (a + 1)]
    congr 1
    omega

theorem runOut_append_head (k : Nat) (hk : 1 ≤ k) (x : List Char) :
    ∃ w, runOut k ++ x = '\n' :: w := by
  rw [runOut_eq_min]
  cases hmin : min k 3 with
  | zero => omega
  | succ m =>
    rw [List.replicate_succ, List.cons_append]
    exact ⟨List.replicate m '\n' ++ x, rfl⟩

theorem P_pos_head (l : List Char) : ∀ k, 1 ≤ k → ∃ w, P k l = '\n' :: w := by
  induction l with
  | nil =>
    intro k hk
    rw [P_nil, ← List.append_nil (runOut k)]
    exact runOut_append_head k hk []
  | cons c r ih =>
    intro k hk
    by_cases hc : c = '\n'
    · subst hc
      cases hm : headMatch r with
      | none =>
        rw [P_cons_none k hm]
        exact ih (k + 1) (by omega)
      | some val =>
        obtain ⟨j, s, rest⟩ := val
        rw [P_cons_match k hm, List.append_assoc]
        rw [show List.replicate 3 '\n' = runOut 3 from (runOut_small (by omega)).symm]
        exact runOut_append_head 3 (by omega) _
    · rw [P_cons_other k r hc]
      exact runOut_append_head k hk _

/-! ### Fusion: `CLa k ∘ IB = P k` -/

theorem CLa_hashes (j : Nat) (hj : 1 ≤ j) : ∀ (k : Nat) (w : List Char),
    CLa k (List.replicate j '#' ++ w) = runOut k ++ List.replicate j '#' ++ CLa 0 w := by
  induction j with
  | zero => omega
  | succ j ih =>
    intro k w
    rw [List.replicate_succ, List.cons_append, CLa_cons_other k _ (by decide)]
    by_cases hj0 : 1 ≤ j
    · rw [ih hj0 0 w, runOut_zero]
      simp
    · have hj0' : j = 0 := by omega
      subst hj0'
      simp

theorem CLa_IB_bounded : ∀ (n : Nat) (l : List Char), l.length ≤ n →
    ∀ k, CLa k (IB l) = P k l := by
  intro n
  induction n with
  | zero =>
    intro l hl k
    have hnil : l = [] := List.eq_nil_of_length_eq_zero (Nat.le_zero.mp hl)
    subst hnil
    simp [IB_nil, P_nil, CLa]
  | succ n ih =>
    intro l hl k
    cases l with
    | nil => simp [IB_nil, P_nil, CLa]
    | cons c r =>
      have hr : r.length ≤ n := by
        simp only [List.length_cons] at hl
        omega
      by_cases hc : c = '\n'
      · subst hc
        cases hm : headMatch r with
        | none =>
          rw [IB_cons_none hm, P_cons_none k hm, CLa_cons_newline]
          exact ih r hr (k + 1)
        | some val =>
          obtain ⟨j, s, rest⟩ := val
          obtain ⟨hj1, _, _, _⟩ := headMatch_some_elim hm
          have hrest : rest.length ≤ n := by
            have := headMatch_rest_len hm
            omega
          rw [IB_cons_match hm, P_cons_match k hm]
          rw [CLa_cons_newline, CLa_cons_newline, CLa_cons_newline]
          rw [CLa_hashes j hj1 (k + 1 + 1 + 1) (s :: IB rest)]
          rw [show k + 1 + 1 + 1 = k + 3 from rfl, runOut_add3]
          by_cases hsn : s = '\n'
          · subst hsn
            rw [CLa_cons_newline, if_pos rfl, ih rest hrest 1]
          · rw [CLa_cons_other 0 _ hsn, runOut_zero, if_neg hsn, ih rest hrest 0]
            simp
      · rw [IB_cons_other hc, P_cons_other k r hc, CLa_cons_other k _ hc, ih r hr 0]

theorem CLa_IB (l : List Char) (k : Nat) : CLa k (IB l) = P k l :=
  CLa_IB_bounded l.length l le_rfl k

theorem collapseRuns_IB (l : List Char) : collapseRuns (IB l) = P 0 l :=
  CLa_IB l 0

/-! ### Lemmas towards idempotency of the fused scan -/

theorem rep3_cons : (List.replicate 3 '\n' : List Char) = '\n' :: '\n' :: '\n' :: [] := rfl

theorem isJsSpace_ne_hash {c : Char} (h : isJsSpace c = true) : c ≠ '#' := by
  intro hh
  subst hh
  have : isJsSpace '#' = false := by decide
  rw [this] at h
  cases h

/-- Scanning a run of `i` newlines followed by a non-newline char at which the
regex does not match just re-emits the collapsed run and continues. -/
theorem P_run_boundary {c : Char} {w : List Char} (hc : c ≠ '\n')
    (hm : headMatch (c :: w) = none) : ∀ (i a : Nat),
    P a (List.replicate i '\n' ++ c :: w) = runOut (a + i) ++ c :: P 0 w := by
  intro i
  induction i with
  | zero =>
    intro a
    simpa using P_cons_other a w hc
  | succ i ih =>
    intro a
    have hnone : headMatch (List.replicate i '\n' ++ c :: w) = none := by
      cases i with
      | zero => simpa using hm
      | succ i' =>
        rw [List.replicate_succ, List.cons_append]
        exact headMatch_newline _
    rw [List.replicate_succ, List.cons_append, P_cons_none a hnone, ih (a + 1)]
    rw [show a + 1 + i = a + (i + 1) by omega]

/-- If the regex does not match at a newline followed by `c :: r`, it also
does not match at a newline followed by `c :: P 0 r`: one scanning pass
creates no new heading-match sites. -/
theorem headMatch_cons_P0 {c : Char} {r : List Char} (hc : c ≠ '\n')
    (h : headMatch (c :: r) = none) : headMatch (c :: P 0 r) = none := by
  by_cases hhash : c = '#'
  · subst hhash
    obtain ⟨i, rest0, hdecomp, hrest0⟩ :
        ∃ i rest0, r = List.replicate i '#' ++ rest0 ∧ leadHashes rest0 = 0 := by
      refine ⟨leadHashes r, List.drop (leadHashes r) r, ?_, drop_leadHashes r⟩
      conv_lhs => rw [← List.take_append_drop (leadHashes r) r]
      rw [leadHashes_take]
    subst hdecomp
    cases rest0 with
    | nil =>
      rw [List.append_nil]
      have hP : P 0 (List.replicate i '#') = List.replicate i '#' := by
        have hx := P_hashes i []
        simpa [P_nil, runOut_zero] using hx
      rw [hP]
      rw [show ('#' :: List.replicate i '#' : List Char) = List.replicate (i + 1) '#' from
        (List.replicate_succ _ _).symm]
      exact headMatch_rep_nil (i + 1)
    | cons d r2 =>
      have hd : d ≠ '#' := by
        intro hdd
        rw [hdd, leadHashes_hash] at hrest0
        omega
      have hfull : ('#' :: (List.replicate i '#' ++ d :: r2) : List Char) =
          List.replicate (i + 1) '#' ++ d :: r2 := by
        rw [List.replicate_succ, List.cons_append]
      rw [hfull, headMatch_rep_cons r2 hd] at h
      have hcond : ¬ (1 ≤ i + 1 ∧ i + 1 ≤ 6 ∧ isJsSpace d = true) := by
        intro hcc
        rw [if_pos hcc] at h
        cases h
      rw [P_hashes i (d :: r2)]
      rw [show ('#' :: (List.replicate i '#' ++ P 0 (d :: r2)) : List Char) =
        List.replicate (i + 1) '#' ++ P 0 (d :: r2) from by
          rw [List.replicate_succ, List.cons_append]]
      by_cases hdn : d = '\n'
      · subst hdn
        have h7 : ¬ (i + 1 ≤ 6) := fun h6 => hcond ⟨by omega, h6, by decide⟩
        obtain ⟨w', hw'⟩ : ∃ w', P 0 ('\n' :: r2) = '\n' :: w' := by
          cases hm2 : headMatch r2 with
          | none =>
            rw [P_cons_none 0 hm2]
            exact P_pos_head r2 1 (by omega)
          | some val =>
            obtain ⟨j2, s2, rest2⟩ := val
            rw [P_cons_match 0 hm2, List.append_assoc]
            rw [show List.replicate 3 '\n' = runOut 3 from (runOut_small (by omega)).symm]
            exact runOut_append_head 3 (by omega) _
        rw [hw', headMatch_rep_cons w' (by decide)]
        rw [if_neg (fun hcc => h7 hcc.2.1)]
      · rw [P_cons_other 0 r2 hdn, runOut_zero, List.nil_append]
        rw [headMatch_rep_cons (P 0 r2) hd]
        rw [if_neg hcond]
  · exact headMatch_nonhash _ hhash

/-- Re-scanning a heading block emitted by the fused scan reproduces it,
given the induction facts for the remainder. -/
theorem P_block (j : Nat) (hj1 : 1 ≤ j) (hj6 : j ≤ 6) (s : Char) (rest : List Char)
    (hjs : isJsSpace s = true)
    (ihmain : P 0 (P 0 rest) = P 0 rest)
    (ihhelp : ∀ w2, P 1 rest = '\n' :: w2 → P 1 w2 = '\n' :: w2)
    (a : Nat) :
    P a ('\n' :: (List.replicate j '#' ++ (if s = '\n' then P 1 rest else s :: P 0 rest)))
      = List.replicate 3 '\n' ++ List.replicate j '#' ++
        (if s = '\n' then P 1 rest else s :: P 0 rest) := by
  by_cases hsn : s = '\n'
  · subst hsn
    rw [if_pos rfl]
    obtain ⟨w2, hw2⟩ := P_pos_head rest 1 (by omega)
    rw [hw2]
    have hm2 : headMatch (List.replicate j '#' ++ '\n' :: w2) = some (j, '\n', w2) := by
      rw [headMatch_rep_cons w2 (by decide)]
      rw [if_pos ⟨hj1, hj6, by decide⟩]
    rw [P_cons_match a hm2, if_pos rfl, ihhelp w2 hw2]
  · rw [if_neg hsn]
    have hsh : s ≠ '#' := isJsSpace_ne_hash hjs
    have hm2 : headMatch (List.replicate j '#' ++ s :: P 0 rest) = some (j, s, P 0 rest) := by
      rw [headMatch_rep_cons _ hsh, if_pos ⟨hj1, hj6, hjs⟩]
    rw [P_cons_match a hm2, if_neg hsn, ihmain]

theorem P_idem_nil_main (k : Nat) : P 0 (P k []) = P k [] := by
  rw [P_nil, runOut_eq_min, P_replicate_newline (min k 3) 0, Nat.zero_add]
  exact runOut_small (Nat.min_le_right k 3)

theorem P_idem_nil_helper (k : Nat) (w : List Char) (hPk : P k [] = '\n' :: w) :
    P 1 w = '\n' :: w := by
  rw [P_nil, runOut_eq_min] at hPk
  cases hmin : min k 3 with
  | zero =>
    rw [hmin] at hPk
    simp at hPk
  | succ m =>
    rw [hmin, List.replicate_succ] at hPk
    have hw : w = List.replicate m '\n' := by
      injection hPk with _ h2
      exact h2.symm
    subst hw
    have hm3 : m + 1 ≤ 3 := by
      have := Nat.min_le_right k 3
      omega
    rw [P_replicate_newline m 1, show 1 + m = m + 1 by omega,
      runOut_small hm3, List.replicate_succ]

/-- The idempotency core, by strong induction on the input length.  MAIN: a
second scanning pass over `P k l` reproduces it, provided that when the scan
is mid-run (`k ≥ 1`) the regex does not match right at `l` (which is the case
at every reachable state).  HELPER: when `P k l` starts with a newline that an
enclosing pass has consumed as the `\s` of a heading match, rescanning the
tail with one pending newline reproduces `P k l`. -/
theorem P_idem_core : ∀ (n : Nat) (l : List Char), l.length ≤ n →
    (∀ k, (1 ≤ k → headMatch l = none) → P 0 (P k l) = P k l) ∧
    (∀ k w, 1 ≤ k → (2 ≤ k → headMatch l = none) → P k l = '\n' :: w →
      P 1 w = '\n' :: w) := by
  intro n
  induction n with
  | zero =>
    intro l hl
    have hnil : l = [] := List.eq_nil_of_length_eq_zero (Nat.le_zero.mp hl)
    subst hnil
    exact ⟨fun k _ => P_idem_nil_main k, fun k w _ _ hPk => P_idem_nil_helper k w hPk⟩
  | succ n ih =>
    intro l hl
    cases l with
    | nil =>
      exact ⟨fun k _ => P_idem_nil_main k, fun k w _ _ hPk => P_idem_nil_helper k w hPk⟩
    | cons c r =>
      have hr : r.length ≤ n := by
        simp only [List.length_cons] at hl
        omega
      constructor
      · intro k hside
        by_cases hc : c = '\n'
        · subst hc
          cases hm : headMatch r with
          | none =>
            rw [P_cons_none k hm]
            exact (ih r hr).1 (k + 1) (fun _ => hm)
          | some val =>
            obtain ⟨j, s, rest⟩ := val
            obtain ⟨hj1, hj6, hjs, _⟩ := headMatch_some_elim hm
            have hrest : rest.length ≤ n := by
              have := headMatch_rest_len hm
              omega
            have ihm : P 0 (P 0 rest) = P 0 rest :=
              (ih rest hrest).1 0 (fun h1 => absurd h1 (by omega))
            have ihh : ∀ w2, P 1 rest = '\n' :: w2 → P 1 w2 = '\n' :: w2 :=
              fun w2 hw2 =>
                (ih rest hrest).2 1 w2 (by omega) (fun h2 => absurd h2 (by omega)) hw2
            rw [P_cons_match k hm, List.append_assoc, rep3_cons]
            simp only [List.cons_append, List.nil_append]
            rw [P_cons_none 0 (headMatch_newline _), P_cons_none 1 (headMatch_newline _)]
            rw [P_block j hj1 hj6 s rest hjs ihm ihh 2, List.append_assoc, rep3_cons]
            simp only [List.cons_append, List.nil_append]
        · rw [P_cons_other k r hc]
          have ihm : P 0 (P 0 r) = P 0 r :=
            (ih r hr).1 0 (fun h1 => absurd h1 (by omega))
          cases k with
          | zero =>
            rw [runOut_zero, List.nil_append, P_cons_other 0 (P 0 r) hc, runOut_zero,
              List.nil_append, ihm]
          | succ k' =>
            have hmc : headMatch (c :: r) = none := hside (by omega)
            have hmc' : headMatch (c :: P 0 r) = none := headMatch_cons_P0 hc hmc
            rw [runOut_eq_min]
            have hminpos : 1 ≤ min (k' + 1) 3 := Nat.le_min.mpr ⟨by omega, by omega⟩
            cases hmin : min (k' + 1) 3 with
            | zero => rw [hmin] at hminpos; omega
            | succ m =>
              rw [P_run_boundary hc hmc' (m + 1) 0, ihm, Nat.zero_add]
              have hm3 : m + 1 ≤ 3 := by
                have := Nat.min_le_right (k' + 1) 3
                omega
              rw [runOut_small hm3]
      · intro k w hk hside hPk
        by_cases hc : c = '\n'
        · subst hc
          cases hm : headMatch r with
          | none =>
            rw [P_cons_none k hm] at hPk
            exact (ih r hr).2 (k + 1) w (by omega) (fun _ => hm) hPk
          | some val =>
            obtain ⟨j, s, rest⟩ := val
            obtain ⟨hj1, hj6, hjs, _⟩ := headMatch_some_elim hm
            have hrest : rest.length ≤ n := by
              have := headMatch_rest_len hm
              omega
            have ihm : P 0 (P 0 rest) = P 0 rest :=
              (ih rest hrest).1 0 (fun h1 => absurd h1 (by omega))
            have ihh : ∀ w2, P 1 rest = '\n' :: w2 → P 1 w2 = '\n' :: w2 :=
              fun w2 hw2 =>
                (ih rest hrest).2 1 w2 (by omega) (fun h2 => absurd h2 (by omega)) hw2
            rw [P_cons_match k hm, List.append_assoc, rep3_cons] at hPk
            simp only [List.cons_append, List.nil_append] at hPk
            have hw : w = '\n' :: '\n' :: (List.replicate j '#' ++
                (if s = '\n' then P 1 rest else s :: P 0 rest)) := by
              injection hPk with _ h2
              exact h2.symm
            subst hw
            rw [P_cons_none 1 (headMatch_newline _)]
            rw [P_block j hj1 hj6 s rest hjs ihm ihh 2, List.append_assoc, rep3_cons]
            simp only [List.cons_append, List.nil_append]
        · rw [P_cons_other k r hc, runOut_eq_min] at hPk
          have ihm : P 0 (P 0 r) = P 0 r :=
            (ih r hr).1 0 (fun h1 => absurd h1 (by omega))
          have hminpos : 1 ≤ min k 3 := Nat.le_min.mpr ⟨hk, by omega⟩
          cases hmin : min k 3 with
          | zero => rw [hmin] at hminpos; omega
          | succ m =>
            rw [hmin, List.replicate_succ, List.cons_append] at hPk
            have hw : w = List.replicate m '\n' ++ c :: P 0 r := by
              injection hPk with _ h2
              exact h2.symm
            subst hw
            cases m with
            | zero =>
              simp only [List.replicate_zero, List.nil_append]
              rw [P_cons_other 1 (P 0 r) hc, ihm, runOut_small (by omega)]
              rfl
            | succ m' =>
              have hk2 : 2 ≤ k := by
                have := Nat.min_le_left k 3
                omega
              have hmc : headMatch (c :: r) = none := hside hk2
              have hmc' : headMatch (c :: P 0 r) = none := headMatch_cons_P0 hc hmc
              rw [P_run_boundary hc hmc' (m' + 1) 1, ihm]
              have hm3 : m' + 1 + 1 ≤ 3 := by
                have := Nat.min_le_right k 3
                omega
              rw [show 1 + (m' + 1) = m' + 1 + 1 by omega, runOut_small hm3]
              rw [List.replicate_succ, List.cons_append]

/-- Idempotency of the fused heading-blank/newline-collapse pass. -/
theorem P_idem (l : List Char) : P 0 (P 0 l) = P 0 l :=
  (P_idem_core l.length l le_rfl).1 0 (fun h1 => absurd h1 (by omega))

/-! ### getLast?, dropWhile and trim lemmas -/

theorem getLast?_cons_of_ne_nil {α : Type} (c : α) {l : List α} (h : l ≠ []) :
    (c :: l).getLast? = l.getLast? := by
  cases l with
  | nil => exact absurd rfl h
  | cons d r => exact List.getLast?_cons_cons

theorem getLast?_append_cons {α : Type} : ∀ (l1 : List α) (c : α) (l2 : List α),
    (l1 ++ c :: l2).getLast? = (c :: l2).getLast? := by
  intro l1
  induction l1 with
  | nil => intro c l2; rfl
  | cons a t ih =>
    intro c l2
    rw [List.cons_append, getLast?_cons_of_ne_nil a (by
      intro habs
      rw [List.append_eq_nil] at habs
      cases habs.2), ih c l2]

theorem getLast?_append_ne_nil {α : Type} (l1 : List α) {l2 : List α} (h : l2 ≠ []) :
    (l1 ++ l2).getLast? = l2.getLast? := by
  cases l2 with
  | nil => exact absurd rfl h
  | cons c r => exact getLast?_append_cons l1 c r

theorem head_dropWhile (p : Char → Bool) : ∀ (l : List Char) (c : Char),
    (l.dropWhile p).head? = some c → p c = false := by
  intro l
  induction l with
  | nil => intro c h; simp [List.dropWhile] at h
  | cons a r ih =>
    intro c h
    rw [List.dropWhile_cons] at h
    split at h
    · exact ih c h
    · rename_i hpa
      simp only [List.head?_cons, Option.some_inj] at h
      subst h
      cases hb : p a
      · rfl
      · exact absurd hb hpa

theorem getLast?_dropWhile (p : Char → Bool) : ∀ (l : List Char) (c : Char),
    (l.dropWhile p).getLast? = some c → l.getLast? = some c := by
  intro l
  induction l with
  | nil => intro c h; simp [List.dropWhile] at h
  | cons a r ih =>
    intro c h
    rw [List.dropWhile_cons] at h
    split at h
    · have hr := ih c h
      have hrne : r ≠ [] := by
        intro habs
        rw [habs] at hr
        cases hr
      rw [getLast?_cons_of_ne_nil a hrne]
      exact hr
    · exact h

theorem trim_last_nospace (z : List Char) (c : Char)
    (h : (trimList z).getLast? = some c) : isJsSpace c = false := by
  unfold trimList at h
  rw [List.getLast?_reverse] at h
  exact head_dropWhile isJsSpace _ c h

theorem trim_head_nospace (z : List Char) (c : Char)
    (h : (trimList z).head? = some c) : isJsSpace c = false := by
  unfold trimList at h
  rw [List.head?_reverse] at h
  have h2 := getLast?_dropWhile isJsSpace _ c h
  rw [List.getLast?_reverse] at h2
  exact head_dropWhile isJsSpace z c h2

theorem trim_noop (l : List Char)
    (hhead : ∀ c, l.head? = some c → isJsSpace c = false)
    (hlast : ∀ c, l.getLast? = some c → isJsSpace c = false) :
    trimList l = l := by
  unfold trimList
  have h1 : l.dropWhile isJsSpace = l := by
    cases l with
    | nil => rfl
    | cons a r =>
      rw [List.dropWhile_cons, if_neg (fun hpa => by rw [hhead a rfl] at hpa; cases hpa)]
  rw [h1]
  have h2 : l.reverse.dropWhile isJsSpace = l.reverse := by
    cases hrev : l.reverse with
    | nil => rfl
    | cons a r =>
      have ha : l.getLast? = some a := by
        rw [← List.head?_reverse, hrev]
        rfl
      rw [List.dropWhile_cons, if_neg (fun hpa => by rw [hlast a ha] at hpa; cases hpa)]
  rw [h2, List.reverse_reverse]

theorem ensureTitle_head (l : List Char) : (ensureTitle l).head? = some '#' := by
  unfold ensureTitle
  split
  · assumption
  · rfl

theorem ensureTitle_getLast {l : List Char} (h : l ≠ []) :
    (ensureTitle l).getLast? = l.getLast? := by
  unfold ensureTitle
  split
  · rfl
  · rw [show ('#' :: ' ' :: l : List Char) = ['#', ' '] ++ l from rfl,
      getLast?_append_ne_nil _ h]

/-- The fused scan preserves nonemptiness and the last character, provided the
input ends in a non-whitespace character (e.g. because it was trimmed). -/
theorem P_getLast : ∀ (n : Nat) (l : List Char), l.length ≤ n → ∀ k, l ≠ [] →
    (∀ c, l.getLast? = some c → isJsSpace c = false) →
    P k l ≠ [] ∧ (P k l).getLast? = l.getLast? := by
  intro n
  induction n with
  | zero =>
    intro l hl k hne _
    exact absurd (List.eq_nil_of_length_eq_zero (Nat.le_zero.mp hl)) hne
  | succ n ih =>
    intro l hl k hne hlast
    cases l with
    | nil => exact absurd rfl hne
    | cons c r =>
      have hr : r.length ≤ n := by
        simp only [List.length_cons] at hl
        omega
      by_cases hrnil : r = []
      · subst hrnil
        have hcs : isJsSpace c = false := hlast c (by simp)
        have hcn : c ≠ '\n' := by
          intro hcc
          rw [hcc] at hcs
          have : isJsSpace '\n' = true := by decide
          rw [this] at hcs
          cases hcs
        rw [P_cons_other k [] hcn, P_nil, runOut_zero]
        constructor
        · intro habs
          rw [List.append_eq_nil] at habs
          cases habs.2
        · rw [getLast?_append_cons]
      · have hlast' : ∀ e, r.getLast? = some e → isJsSpace e = false := by
          intro e he
          exact hlast e (by rw [getLast?_cons_of_ne_nil c hrnil]; exact he)
        have hlcons : (c :: r).getLast? = r.getLast? := getLast?_cons_of_ne_nil c hrnil
        by_cases hc : c = '\n'
        · subst hc
          cases hm : headMatch r with
          | none =>
            rw [P_cons_none k hm, hlcons]
            exact ih r hr (k + 1) hrnil hlast'
          | some val =>
            obtain ⟨j, s, rest⟩ := val
            obtain ⟨hj1, hj6, hjs, hrdec⟩ := headMatch_some_elim hm
            rw [P_cons_match k hm]
            by_cases hrestnil : rest = []
            · exfalso
              subst hrestnil
              have hgl : r.getLast? = some s := by
                rw [hrdec, getLast?_append_cons]
                rfl
              have hcontra := hlast' s hgl
              rw [hjs] at hcontra
              cases hcontra
            · have hrestlen : rest.length ≤ n := by
                have := headMatch_rest_len hm
                omega
              have hlastrest : ∀ e, rest.getLast? = some e → isJsSpace e = false := by
                intro e he
                apply hlast'
                rw [hrdec, getLast?_append_cons, getLast?_cons_of_ne_nil s hrestnil]
                exact he
              have hglrest : r.getLast? = rest.getLast? := by
                rw [hrdec, getLast?_append_cons, getLast?_cons_of_ne_nil s hrestnil]
              by_cases hsn : s = '\n'
              · subst hsn
                rw [if_pos rfl]
                obtain ⟨hne1, heq1⟩ := ih rest hrestlen 1 hrestnil hlastrest
                constructor
                · intro habs
                  rw [List.append_eq_nil] at habs
                  exact hne1 habs.2
                · rw [getLast?_append_ne_nil _ hne1, heq1, hlcons, hglrest]
              · rw [if_neg hsn]
                obtain ⟨hne0, heq0⟩ := ih rest hrestlen 0 hrestnil hlastrest
                constructor
                · intro habs
                  rw [List.append_eq_nil] at habs
                  cases habs.2
                · rw [getLast?_append_cons, getLast?_cons_of_ne_nil s hne0, heq0, hlcons,
                    hglrest]
        · rw [P_cons_other k r hc]
          obtain ⟨hne0, heq0⟩ := ih r hr 0 hrnil hlast'
          constructor
          · intro habs
            rw [List.append_eq_nil] at habs
            cases habs.2
          · rw [getLast?_append_cons, getLast?_cons_of_ne_nil c hne0, heq0, hlcons]

/-! ### C2: idempotency of post-processing -/

/-- C2 (corrected).  Post-processing is idempotent for every input whose
processed output is not the bare title `"# "` (equivalently, whose text after
fence-stripping trims to something non-empty) and whose processed output does
not end with the trailing-fence pattern `"\n```"` that the second replace
strips.  The unrestricted claim is false: see the counterexample. -/
theorem C2_postProcess_idem (x : String)
    (h1 : postProcessMarkdown x ≠ "# ")
    (h2 : stripFenceClose (postProcessMarkdown x).data = (postProcessMarkdown x).data) :
    postProcessMarkdown (postProcessMarkdown x) = postProcessMarkdown x := by
  have hydata : (postProcessMarkdown x).data =
      ensureTitle (P 0 (trimList (stripFenceClose (stripFenceOpen x.data)))) := by
    show (String.mk (postProcessList x.data)).data = _
    unfold postProcessList
    rw [collapseRuns_IB]
  set t := trimList (stripFenceClose (stripFenceOpen x.data)) with ht
  have htne : t ≠ [] := by
    intro h0
    apply h1
    show String.mk (postProcessList x.data) = "# "
    unfold postProcessList
    rw [collapseRuns_IB, ← ht, h0, P_nil, runOut_zero]
    rfl
  have hPfacts : P 0 t ≠ [] ∧ (P 0 t).getLast? = t.getLast? :=
    P_getLast t.length t le_rfl 0 htne (fun c hc => trim_last_nospace _ c (by rw [← ht]; exact hc))
  have hyhead : (postProcessMarkdown x).data.head? = some '#' := by
    rw [hydata]
    exact ensureTitle_head _
  have hfo : stripFenceOpen (postProcessMarkdown x).data = (postProcessMarkdown x).data := by
    unfold stripFenceOpen
    rw [if_neg ?hne]
    case hne =>
      intro heq
      have hfirst : fenceOpen.head? = some '#' := by
        rw [← heq]
        cases hy : (postProcessMarkdown x).data with
        | nil => rw [hy] at hyhead; cases hyhead
        | cons a w =>
          rw [hy] at hyhead
          simp only [List.head?_cons, Option.some_inj] at hyhead
          subst hyhead
          rfl
      have hbt : fenceOpen.head? = some btick := rfl
      rw [hbt] at hfirst
      have : btick = '#' := Option.some_inj.mp hfirst
      exact absurd this (by decide)
  have hylast : ∀ c, (postProcessMarkdown x).data.getLast? = some c → isJsSpace c = false := by
    intro c hc
    rw [hydata, ensureTitle_getLast hPfacts.1, hPfacts.2] at hc
    exact trim_last_nospace _ c (by rw [← ht]; exact hc)
  have hyheadns : ∀ c, (postProcessMarkdown x).data.head? = some c → isJsSpace c = false := by
    intro c hc
    rw [hyhead] at hc
    have hcc : c = '#' := (Option.some_inj.mp hc).symm
    subst hcc
    decide
  have htrim : trimList (postProcessMarkdown x).data = (postProcessMarkdown x).data :=
    trim_noop _ hyheadns hylast
  have key : postProcessList (postProcessMarkdown x).data = (postProcessMarkdown x).data := by
    unfold postProcessList
    rw [hfo, h2, htrim, collapseRuns_IB, hydata]
    by_cases hstart : (P 0 t).head? = some '#'
    · have e1 : ensureTitle (P 0 t) = P 0 t := by
        unfold ensureTitle
        rw [if_pos hstart]
      rw [e1, P_idem t, e1]
    · have e1 : ensureTitle (P 0 t) = '#' :: ' ' :: P 0 t := by
        unfold ensureTitle
        rw [if_neg hstart]
      rw [e1]
      have e2 : P 0 ('#' :: ' ' :: P 0 t) = '#' :: ' ' :: P 0 t := by
        rw [P_cons_other 0 _ (by decide : ('#' : Char) ≠ '\n'), runOut_zero, List.nil_append]
        rw [P_cons_other 0 _ (by decide : (' ' : Char) ≠ '\n'), runOut_zero, List.nil_append]
        rw [P_idem t]
      rw [e2]
      unfold ensureTitle
      rw [if_pos (show ('#' :: ' ' :: P 0 t).head? = some '#' from rfl)]
  show String.mk (postProcessList (postProcessMarkdown x).data) = postProcessMarkdown x
  rw [key]

/-! ### Concrete evaluation helpers -/

theorem IB_no_newline : ∀ (l : List Char), (∀ c ∈ l, c ≠ '\n') → IB l = l := by
  intro l
  induction l with
  | nil => exact fun _ => IB_nil
  | cons c r ih =>
    intro h
    rw [IB_cons_other (h c (by simp)), ih (fun e he => h e (by simp [he]))]

theorem CLa_no_newline : ∀ (l : List Char), (∀ c ∈ l, c ≠ '\n') → CLa 0 l = l := by
  intro l
  induction l with
  | nil => exact fun _ => rfl
  | cons c r ih =>
    intro h
    rw [CLa_cons_other 0 r (h c (by simp)), runOut_zero, List.nil_append,
      ih (fun e he => h e (by simp [he]))]

theorem postProcess_empty : postProcessMarkdown "" = "# " := by
  show String.mk (postProcessList ("" : String).data) = "# "
  unfold postProcessList
  rw [show trimList (stripFenceClose (stripFenceOpen ("" : String).data)) = [] from by decide]
  rw [IB_nil]
  rfl

theorem postProcess_title : postProcessMarkdown "# " = "#" := by
  show String.mk (postProcessList ("# " : String).data) = "#"
  unfold postProcessList
  rw [show trimList (stripFenceClose (stripFenceOpen ("# " : String).data)) = ['#'] from by
    decide]
  rw [IB_cons_other (by decide), IB_nil]
  rfl

/-- C2 counterexample: `postProcessMarkdown` is not idempotent as claimed.
On the input `""` one application yields `"# "`, but a second application
yields `"#"` (the `trim` of the second pass eats the space of the prepended
title), so applying it twice differs from applying it once. -/
theorem C2_counterexample :
    postProcessMarkdown (postProcessMarkdown "") ≠ postProcessMarkdown "" ∧
    postProcessMarkdown "" = "# " ∧
    postProcessMarkdown (postProcessMarkdown "") = "#" := by
  refine ⟨?_, postProcess_empty, ?_⟩
  · rw [postProcess_empty, postProcess_title]
    decide
  · rw [postProcess_empty, postProcess_title]

theorem postProcess_hello : postProcessMarkdown "hello" = "# hello" := by
  show String.mk (postProcessList ("hello" : String).data) = "# hello"
  unfold postProcessList
  rw [show trimList (stripFenceClose (stripFenceOpen ("hello" : String).data)) =
    ("hello" : String).data from by decide]
  rw [IB_no_newline _ (by decide)]
  show String.mk (ensureTitle (CLa 0 ("hello" : String).data)) = "# hello"
  rw [CLa_no_newline _ (by decide)]
  rfl

/-- Concrete instantiation of the amended C2 at the input `"hello"`. -/
theorem C2_postProcess_idem_witness :
    postProcessMarkdown (postProcessMarkdown "hello") = postProcessMarkdown "hello" :=
  C2_postProcess_idem "hello"
    (by rw [postProcess_hello]; decide)
    (by rw [postProcess_hello]; decide)

/-! ### C3: what the newline-collapse step does to maximal runs -/

theorem CLa_boundary : ∀ (k m : Nat) (b : List Char), b.head? ≠ some '\n' →
    CLa m (List.replicate k '\n' ++ b) = runOut (m + k) ++ CLa 0 b := by
  intro k
  induction k with
  | zero =>
    intro m b hb
    cases b with
    | nil => simp [CLa, runOut_zero]
    | cons c r =>
      have hc : c ≠ '\n' := fun hh => hb (by rw [hh]; rfl)
      rw [List.replicate_zero, List.nil_append, CLa_cons_other m r hc,
        CLa_cons_other 0 r hc, runOut_zero, List.nil_append, Nat.add_zero]
  | succ k ih =>
    intro m b hb
    rw [List.replicate_succ, List.cons_append, CLa_cons_newline, ih (m + 1) b hb]
    rw [show m + 1 + k = m + (k + 1) by omega]

theorem CLa_split : ∀ (a : List Char), a.getLast? ≠ some '\n' →
    ∀ (m : Nat), (a = [] → m = 0) → ∀ (k : Nat) (b : List Char),
    b.head? ≠ some '\n' → 4 ≤ k →
    CLa m (a ++ (List.replicate k '\n' ++ b)) =
      CLa m a ++ (List.replicate 3 '\n' ++ CLa 0 b) := by
  intro a
  induction a with
  | nil =>
    intro _ m hm k b hb hk
    rw [hm rfl, List.nil_append, CLa_boundary k 0 b hb, Nat.zero_add]
    have hro : runOut k = List.replicate 3 '\n' := by
      unfold runOut
      rw [if_pos hk]
    rw [hro]
    rfl
  | cons c a' ih =>
    intro ha m _ k b hb hk
    have ha' : a'.getLast? ≠ some '\n' := by
      intro he
      apply ha
      by_cases hnil : a' = []
      · rw [hnil] at he
        cases he
      · rw [getLast?_cons_of_ne_nil c hnil]
        exact he
    by_cases hc : c = '\n'
    · subst hc
      have hanil : a' ≠ [] := by
        intro h0
        apply ha
        rw [h0]
        rfl
      rw [List.cons_append, CLa_cons_newline, CLa_cons_newline,
        ih ha' (m + 1) (fun h0 => absurd h0 hanil) k b hb hk]
    · rw [List.cons_append, CLa_cons_other m _ hc, CLa_cons_other m a' hc,
        ih ha' 0 (fun _ => rfl) k b hb hk]
      simp

/-- C3 (corrected).  The newline-collapse step of post-processing
(`.replace(/\n{4,}/g, '\n\n\n')`, line 367) maps every maximal run of 4 or
more consecutive newlines to exactly THREE newlines, not two: for every
context `a` not ending in a newline and every continuation `b` not starting
with one, a run of `k ≥ 4` newlines in between comes out as exactly 3. -/
theorem C3_collapse_run_three (a b : List Char) (k : Nat)
    (ha : a.getLast? ≠ some '\n') (hb : b.head? ≠ some '\n') (hk : 4 ≤ k) :
    collapseRuns (a ++ (List.replicate k '\n' ++ b)) =
      collapseRuns a ++ (List.replicate 3 '\n' ++ collapseRuns b) :=
  CLa_split a ha 0 (fun _ => rfl) k b hb hk

/-- Concrete instantiation of the amended C3. -/
theorem C3_collapse_run_three_witness :
    collapseRuns (("a" : String).data ++ (List.replicate 4 '\n' ++ ("b" : String).data)) =
      collapseRuns ("a" : String).data ++
        (List.replicate 3 '\n' ++ collapseRuns ("b" : String).data) :=
  C3_collapse_run_three _ _ 4 (by decide) (by decide) (by decide)

theorem IB_no_hash : ∀ (l : List Char), (∀ c ∈ l, c ≠ '#') → IB l = l := by
  intro l
  induction l with
  | nil => exact fun _ => IB_nil
  | cons c r ih =>
    intro h
    by_cases hc : c = '\n'
    · subst hc
      have hm : headMatch r = none := by
        cases r with
        | nil => exact headMatch_nil
        | cons d r' => exact headMatch_nonhash r' (h d (by simp))
      rw [IB_cons_none hm, ih (fun e he => h e (by simp [he]))]
    · rw [IB_cons_other hc, ih (fun e he => h e (by simp [he]))]

/-- C3 counterexample: on `"a\n\n\n\nb"` the maximal run of 4 newlines is
collapsed to three newlines in the post-processed output, not to two as the
claim states. -/
theorem C3_counterexample :
    postProcessMarkdown "a\n\n\n\nb" = "# a\n\n\nb" ∧
    postProcessMarkdown "a\n\n\n\nb" ≠ "# a\n\nb" := by
  have hval : postProcessMarkdown "a\n\n\n\nb" = "# a\n\n\nb" := by
    show String.mk (postProcessList ("a\n\n\n\nb" : String).data) = _
    unfold postProcessList
    rw [show trimList (stripFenceClose (stripFenceOpen ("a\n\n\n\nb" : String).data)) =
      ("a\n\n\n\nb" : String).data from by decide]
    rw [IB_no_hash _ (by decide)]
    decide
  exact ⟨hval, by rw [hval]; decide⟩

/-! ### The failover loop (`AIReadmeGenerator.generateReadme`, lines 138-199)

The loop's interaction with the outside world (provider call outcomes,
response times, `Date.now()` readings) is supplied by an environment oracle:
`call i` is the outcome of the provider call made at loop attempt `i`,
`checkTime i` the clock reading for the health check at attempt `i`,
`evTime i`/`responseTime i` the timestamp and elapsed time recorded by the
`measurePerformance` wrapper around that call. -/

/-- One observable iteration of the failover loop. -/
inductive Step where
  | skipped (idx : Nat) (provider : String)
  | failed (idx : Nat) (provider : String) (err : String)
  | succeeded (idx : Nat) (provider : String)
deriving DecidableEq

/-- The index of the provider the iteration looked at. -/
def Step.index : Step → Nat
  | .skipped i _ => i
  | .failed i _ _ => i
  | .succeeded i _ => i

/-- The four possible outcomes of `generateReadme`. -/
inductive GenResult where
  | success (provider : String) (markdown : String)
  | exhausted (msg : String)
  | noAvailable
  | configError
deriving DecidableEq

/-- The environment oracle. -/
structure Env where
  call : Nat → Except String String
  responseTime : Nat → ℚ
  evTime : Nat → Int
  checkTime : Nat → Int
  initTime : Int

/-- Record one more loop iteration in front of a loop outcome's trace. -/
def consStep (s : Step) (r : GenResult × PerformanceMonitor × List Step) :
    GenResult × PerformanceMonitor × List Step := (r.1, r.2.1, s :: r.2.2)

@[simp] theorem consStep_fst (s : Step) (r : GenResult × PerformanceMonitor × List Step) :
    (consStep s r).1 = r.1 := rfl

@[simp] theorem consStep_mon (s : Step) (r : GenResult × PerformanceMonitor × List Step) :
    (consStep s r).2.1 = r.2.1 := rfl

@[simp] theorem consStep_trace (s : Step) (r : GenResult × PerformanceMonitor × List Step) :
    (consStep s r).2.2 = s :: r.2.2 := rfl

/-- The `for (attempt...)` loop of lines 161-198.  `remaining` counts the
iterations still allowed (`providers.length - attempt`); `idx` is
`currentProviderIndex`.  A skip advances the cursor and continues; a call is
recorded by `measurePerformance` into the monitor; a failure advances the
cursor and, when this was the last attempt, raises the exhaustion error with
the last failure's message; running out of attempts yields the terminal
"no available AI providers" error. -/
def runLoop (providers : List String) (env : Env) :
    Nat → Nat → Nat → PerformanceMonitor → GenResult × PerformanceMonitor × List Step
  | 0, _, _, mon => (.noAvailable, mon, [])
  | remaining + 1, attempt, idx, mon =>
    if shouldAvoidProvider (env.checkTime attempt) mon (providers.getD idx "") then
      consStep (Step.skipped idx (providers.getD idx ""))
        (runLoop providers env remaining (attempt + 1) ((idx + 1) % providers.length) mon)
    else
      match env.call attempt with
      | .ok md =>
        (.success (providers.getD idx "") (postProcessMarkdown md),
         recordEvent mon
           { provider := providers.getD idx "", success := true,
             responseTime := env.responseTime attempt, error := none,
             timestamp := env.evTime attempt },
         [Step.succeeded idx (providers.getD idx "")])
      | .error msg =>
        if attempt = providers.length - 1 then
          (.exhausted ("All AI providers failed. Last error: " ++ msg),
           recordEvent mon
             { provider := providers.getD idx "", success := false,
               responseTime := env.responseTime attempt, error := some msg,
               timestamp := env.evTime attempt },
           [Step.failed idx (providers.getD idx "") msg])
        else
          consStep (Step.failed idx (providers.getD idx "") msg)
            (runLoop providers env remaining (attempt + 1) ((idx + 1) % providers.length)
              (recordEvent mon
                { provider := providers.getD idx "", success := false,
                  responseTime := env.responseTime attempt, error := some msg,
                  timestamp := env.evTime attempt }))

/-- Lines 149-159: reset the cursor to 0, then override it with the position
of the monitor's best provider if that provider is configured. -/
def startIndex (providers : List String) (env : Env) (mon0 : PerformanceMonitor) : Nat :=
  match getBestProvider env.initTime mon0 with
  | some best =>
    match providers.findIdx? (fun p => p = best) with
    | some i => i
    | none => 0
  | none => 0

/-- `AIReadmeGenerator.generateReadme`: the empty-configuration guard of
lines 142-144, then the failover loop over at most `providers.length`
attempts. -/
def generateReadme (providers : List String) (env : Env) (mon0 : PerformanceMonitor) :
    GenResult × PerformanceMonitor × List Step :=
  if providers.length = 0 then (.configError, mon0, [])
  else runLoop providers env providers.length 0 (startIndex providers env mon0) mon0

/-- C8 (confirmed).  With an empty provider list, `generateReadme` fails
immediately with the configuration error: the monitor is untouched and the
iteration trace is empty (no provider call, hence no network request), for
every environment and monitor state; the guard precedes the prompt build. -/
theorem C8_empty_providers_config_error (env : Env) (mon0 : PerformanceMonitor) :
    generateReadme [] env mon0 = (GenResult.configError, mon0, []) := by
  unfold generateReadme
  rw [if_pos (show ([] : List String).length = 0 from rfl)]

/-! ### C4: how the loop can exit without success and without the
exhaustion error -/

theorem ne_nil_of_getLast?_some {α : Type} {l : List α} {a : α}
    (h : l.getLast? = some a) : l ≠ [] := by
  intro h0
  rw [h0] at h
  cases h

theorem runLoop_noAvailable (providers : List String) (env : Env) :
    ∀ (remaining attempt idx : Nat) (mon : PerformanceMonitor),
    remaining + attempt = providers.length →
    (runLoop providers env remaining attempt idx mon).1 = GenResult.noAvailable →
    (1 ≤ remaining →
      ∃ i p, (runLoop providers env remaining attempt idx mon).2.2.getLast? =
        some (Step.skipped i p)) ∧
    (∀ s ∈ (runLoop providers env remaining attempt idx mon).2.2,
      ∀ i p, s ≠ Step.succeeded i p) := by
  intro remaining
  induction remaining with
  | zero =>
    intro attempt idx mon _ _
    refine ⟨fun h1 => absurd h1 (by omega), ?_⟩
    intro s hs
    simp only [runLoop] at hs
    cases hs
  | succ remaining ih =>
    intro attempt idx mon hinv hres
    simp only [runLoop] at hres ⊢
    by_cases hav :
        shouldAvoidProvider (env.checkTime attempt) mon (providers.getD idx "") = true
    · rw [if_pos hav] at hres ⊢
      simp only [consStep_fst] at hres
      simp only [consStep_trace]
      have hrec := ih (attempt + 1) ((idx + 1) % providers.length) mon (by omega) hres
      constructor
      · intro _
        by_cases hrem : 1 ≤ remaining
        · obtain ⟨i, p, hlastr⟩ := hrec.1 hrem
          have hne :
              (runLoop providers env remaining (attempt + 1)
                ((idx + 1) % providers.length) mon).2.2 ≠ [] := by
            intro h0
            rw [h0] at hlastr
            cases hlastr
          exact ⟨i, p, by rw [getLast?_cons_of_ne_nil _ hne, hlastr]⟩
        · have hrem0 : remaining = 0 := by omega
          subst hrem0
          exact ⟨idx, providers.getD idx "", rfl⟩
      · intro s hs
        rcases List.mem_cons.mp hs with rfl | hs'
        · intro i p h
          cases h
        · exact hrec.2 s hs'
    · rw [if_neg hav] at hres ⊢
      cases hcall : env.call attempt with
      | ok md =>
        rw [hcall] at hres
        simp only [] at hres
        cases hres
      | error msg =>
        rw [hcall] at hres
        simp only [] at hres ⊢
        by_cases hlast : attempt = providers.length - 1
        · rw [if_pos hlast] at hres
          cases hres
        · rw [if_neg hlast] at hres ⊢
          simp only [consStep_fst] at hres
          simp only [consStep_trace]
          have hrem : 1 ≤ remaining := by omega
          have hrec := ih (attempt + 1) ((idx + 1) % providers.length) _ (by omega) hres
          constructor
          · intro _
            obtain ⟨i, p, hlastr⟩ := hrec.1 hrem
            exact ⟨i, p, by
              rw [getLast?_cons_of_ne_nil _ (ne_nil_of_getLast?_some hlastr), hlastr]⟩
          · intro s hs
            rcases List.mem_cons.mp hs with rfl | hs'
            · intro i p h
              cases h
            · exact hrec.2 s hs'

/-- C4 (corrected).  If the failover loop terminates without a success and
without raising the exhaustion error (result "no available AI providers"),
then the FINAL loop iteration was a health-based skip and no iteration
succeeded — but earlier iterations may have been real `generate` calls that
failed; the original claim that EVERY iteration must have been a skip is
false (see the counterexample). -/
theorem C4_noAvailable_final_skip (providers : List String) (env : Env)
    (mon0 : PerformanceMonitor) (hne : providers ≠ [])
    (hres : (generateReadme providers env mon0).1 = GenResult.noAvailable) :
    (∃ i p, (generateReadme providers env mon0).2.2.getLast? =
      some (Step.skipped i p)) ∧
    (∀ s ∈ (generateReadme providers env mon0).2.2, ∀ i p, s ≠ Step.succeeded i p) := by
  have hlen : ¬ providers.length = 0 := by
    intro h0
    exact hne (List.eq_nil_of_length_eq_zero h0)
  unfold generateReadme at hres ⊢
  rw [if_neg hlen] at hres ⊢
  have h := runLoop_noAvailable providers env providers.length 0
    (startIndex providers env mon0) mon0 (by omega) hres
  exact ⟨h.1 (by omega), h.2⟩

/-- A metrics record for provider "B" with 5 requests and 0 successes. -/
def metricB : PerformanceMetrics :=
  { provider := "B", requestCount := 5, successCount := 0, failureCount := 5,
    averageResponseTime := 0, lastFailure := none, rateLimitHits := 0 }

/-- A monitor in which only "B" is tracked, with failing history. -/
def monC4 : PerformanceMonitor := ⟨[("B", metricB)], []⟩

/-- An environment in which every provider call fails with a generic error. -/
def envC4 : Env :=
  { call := fun _ => Except.error "boom", responseTime := fun _ => 0,
    evTime := fun _ => 0, checkTime := fun _ => 0, initTime := 0 }

/-- Shared evaluation of the two-provider run in which "A" genuinely fails
and "B" is then skipped as unhealthy, so the loop exits with the terminal
error although not every iteration was a skip. -/
theorem C4_run_eval :
    (generateReadme ["A", "B"] envC4 monC4).1 = GenResult.noAvailable ∧
    (generateReadme ["A", "B"] envC4 monC4).2.2 =
      [Step.failed 0 "A" "boom", Step.skipped 1 "B"] := by
  have hBA : (("B" : String) = "A") = False := eq_false (by decide)
  constructor <;>
    norm_num [hBA, generateReadme, startIndex, getBestProvider, bestCandidates, runLoop,
      recordEvent, shouldAvoidProvider, getSuccessRate, mlookup, mset, defaultMetrics,
      monC4, metricB, envC4, maxEvents, List.mergeSort_nil, consStep]

/-- C4 counterexample: with providers ["A", "B"], an environment in which
every call fails, and a monitor that already marks "B" unhealthy, the loop
exits with the terminal "no available provider" error although its first
iteration was an actual failed `generate` call on "A", not a health-based
skip — refuting "every loop iteration was a health-based skip". -/
theorem C4_counterexample :
    (generateReadme ["A", "B"] envC4 monC4).1 = GenResult.noAvailable ∧
    Step.failed 0 "A" "boom" ∈ (generateReadme ["A", "B"] envC4 monC4).2.2 ∧
    (∀ i p, Step.failed 0 "A" "boom" ≠ Step.skipped i p) := by
  refine ⟨C4_run_eval.1, ?_, ?_⟩
  · rw [C4_run_eval.2]
    exact List.mem_cons_self _ _
  · intro i p h
    cases h

/-- Concrete instantiation of the amended C4 on the same run: the final
iteration is a skip and no iteration succeeded. -/
theorem C4_noAvailable_final_skip_witness :
    (∃ i p, (generateReadme ["A", "B"] envC4 monC4).2.2.getLast? =
      some (Step.skipped i p)) ∧
    (∀ s ∈ (generateReadme ["A", "B"] envC4 monC4).2.2,
      ∀ i p, s ≠ Step.succeeded i p) :=
  C4_noAvailable_final_skip ["A", "B"] envC4 monC4 (by decide) C4_run_eval.1

/-! ### C9: the cursor advances by one per iteration and no provider is
retried within one call -/

theorem startIndex_lt (providers : List String) (env : Env) (mon0 : PerformanceMonitor)
    (h : 0 < providers.length) : startIndex providers env mon0 < providers.length := by
  unfold startIndex
  cases getBestProvider env.initTime mon0 with
  | none => simpa using h
  | some best =>
    simp only []
    split
    · rename_i i hidx
      exact (List.findIdx?_eq_some_iff_findIdx_eq.mp hidx).1
    · exact h

theorem runLoop_trace (providers : List String) (env : Env) :
    ∀ (remaining attempt idx : Nat) (mon : PerformanceMonitor), idx < providers.length →
    ((runLoop providers env remaining attempt idx mon).2.2.map Step.index =
      (List.range (runLoop providers env remaining attempt idx mon).2.2.length).map
        (fun i => (idx + i) % providers.length)) ∧
    (runLoop providers env remaining attempt idx mon).2.2.length ≤ remaining := by
  intro remaining
  induction remaining with
  | zero =>
    intro attempt idx mon _
    exact ⟨rfl, le_rfl⟩
  | succ remaining ih =>
    intro attempt idx mon hidx
    have hn : 0 < providers.length := Nat.lt_of_le_of_lt (Nat.zero_le idx) hidx
    have hidx' : (idx + 1) % providers.length < providers.length := Nat.mod_lt _ hn
    have hmod0 : (idx + 0) % providers.length = idx := by
      rw [Nat.add_zero, Nat.mod_eq_of_lt hidx]
    have hcomp : (fun i => ((idx + 1) % providers.length + i) % providers.length) =
        ((fun i => (idx + i) % providers.length) ∘ Nat.succ) := by
      funext i
      show ((idx + 1) % providers.length + i) % providers.length =
        (idx + (i + 1)) % providers.length
      rw [Nat.mod_add_mod, show idx + 1 + i = idx + (i + 1) by omega]
    simp only [runLoop]
    by_cases hav :
        shouldAvoidProvider (env.checkTime attempt) mon (providers.getD idx "") = true
    · rw [if_pos hav]
      simp only [consStep_trace, List.length_cons, List.map_cons]
      obtain ⟨hmap, hlen⟩ := ih (attempt + 1) ((idx + 1) % providers.length) mon hidx'
      refine ⟨?_, by omega⟩
      rw [show Step.index (Step.skipped idx (providers.getD idx "")) = idx from rfl, hmap,
        List.range_succ_eq_map, List.map_cons, hmod0, List.map_map, hcomp]
    · rw [if_neg hav]
      cases hcall : env.call attempt with
      | ok md =>
        simp only []
        refine ⟨?_, by simp⟩
        simp only [List.map_cons, List.map_nil, List.length_cons, List.length_nil]
        rw [show Step.index (Step.succeeded idx (providers.getD idx "")) = idx from rfl]
        rw [show List.range 1 = [0] from by decide]
        simp only [List.map_cons, List.map_nil]
        rw [hmod0]
      | error msg =>
        simp only []
        by_cases hlastA : attempt = providers.length - 1
        · rw [if_pos hlastA]
          refine ⟨?_, by simp⟩
          simp only [List.map_cons, List.map_nil, List.length_cons, List.length_nil]
          rw [show Step.index (Step.failed idx (providers.getD idx "") msg) = idx from rfl]
          rw [show List.range 1 = [0] from by decide]
          simp only [List.map_cons, List.map_nil]
          rw [hmod0]
        · rw [if_neg hlastA]
          simp only [consStep_trace, List.length_cons, List.map_cons]
          obtain ⟨hmap, hlen⟩ := ih (attempt + 1) ((idx + 1) % providers.length)
            (recordEvent mon
              { provider := providers.getD idx "", success := false,
                responseTime := env.responseTime attempt, error := some msg,
                timestamp := env.evTime attempt }) hidx'
          refine ⟨?_, by omega⟩
          rw [show Step.index (Step.failed idx (providers.getD idx "") msg) = idx from rfl,
            hmap, List.range_succ_eq_map, List.map_cons, hmod0, List.map_map, hcomp]

theorem nodup_range_mod (n k s : Nat) (hk : k ≤ n) :
    ((List.range k).map (fun i => (s + i) % n)).Nodup := by
  apply (List.nodup_range k).map_on
  intro x hx y hy hxy
  have hxk : x < k := List.mem_range.mp hx
  have hyk : y < k := List.mem_range.mp hy
  have hmeq : x ≡ y [MOD n] := Nat.ModEq.add_left_cancel' s hxy
  have hx' : x % n = y % n := hmeq
  rwa [Nat.mod_eq_of_lt (by omega), Nat.mod_eq_of_lt (by omega)] at hx'

/-- C9 (confirmed).  Within a single `generateReadme` call the failover loop
runs at most `providers.length` iterations, the cursor advances by exactly
one position modulo the list length on every iteration (so the indices
looked at are `start, start+1, ...` mod `n`), and consequently the iteration
indices are pairwise distinct: no provider position is visited — in
particular none has its `generate` invoked — more than once. -/
theorem C9_no_provider_retried (providers : List String) (env : Env)
    (mon0 : PerformanceMonitor) :
    (generateReadme providers env mon0).2.2.length ≤ providers.length ∧
    (∃ start, (generateReadme providers env mon0).2.2.map Step.index =
      (List.range (generateReadme providers env mon0).2.2.length).map
        (fun i => (start + i) % providers.length)) ∧
    ((generateReadme providers env mon0).2.2.map Step.index).Nodup := by
  unfold generateReadme
  by_cases h0 : providers.length = 0
  · rw [if_pos h0]
    exact ⟨by simp, ⟨0, rfl⟩, by simp⟩
  · rw [if_neg h0]
    have hlt : startIndex providers env mon0 < providers.length :=
      startIndex_lt providers env mon0 (by omega)
    obtain ⟨hmap, hlen⟩ := runLoop_trace providers env providers.length 0
      (startIndex providers env mon0) mon0 hlt
    refine ⟨hlen, ⟨startIndex providers env mon0, hmap⟩, ?_⟩
    rw [hmap]
    exact nodup_range_mod providers.length _ _ hlen

/-! ### C1: rateLimitHits counting -/

/-- An environment in which the single provider always raises the
orchestrator's rate-limited error literal. -/
def envRL : Env :=
  { call := fun _ => Except.error "RATE_LIMIT_EXCEEDED", responseTime := fun _ => 0,
    evTime := fun _ => 0, checkTime := fun _ => 0, initTime := 0 }

/-- Shared evaluation of the one-provider run that always hits the rate
limit: the exhaustion error carries the rate-limit literal, but the
provider's `rateLimitHits` stays 0, because the case-sensitive substring
test `includes('rate limit') || includes('quota')` does not match
`"RATE_LIMIT_EXCEEDED"`. -/
theorem C1_run_eval :
    (generateReadme ["OpenRouter"] envRL emptyMonitor).1 =
      GenResult.exhausted "All AI providers failed. Last error: RATE_LIMIT_EXCEEDED" ∧
    (currentMetrics (generateReadme ["OpenRouter"] envRL emptyMonitor).2.1
      "OpenRouter").rateLimitHits = 0 := by
  have hrl : isRateLimitText (some "RATE_LIMIT_EXCEEDED") = false := by decide
  have hmsg : "All AI providers failed. Last error: " ++ "RATE_LIMIT_EXCEEDED" =
      "All AI providers failed. Last error: RATE_LIMIT_EXCEEDED" := by decide
  constructor <;>
    norm_num [generateReadme, startIndex, getBestProvider, bestCandidates, runLoop,
      recordEvent, shouldAvoidProvider, mlookup, mset, defaultMetrics, currentMetrics,
      emptyMonitor, envRL, maxEvents, List.mergeSort_nil, hrl, hmsg]

/-- C1 (corrected).  `recordEvent` increments `rateLimitHits` exactly when
the event is a failure whose error text contains, CASE-SENSITIVELY, the
substring "rate limit" or "quota" (JS `String.prototype.includes`); and after
the orchestrator exhausts one configured provider that always raises
`RATE_LIMIT_EXCEEDED`, the exhaustion error contains that literal but the
provider's `rateLimitHits` equals 0, not 1, since the thrown literal matches
neither pattern. -/
theorem C1_rateLimit_counting :
    (∀ (mon : PerformanceMonitor) (e : PerformanceEvent),
      (currentMetrics (recordEvent mon e) e.provider).rateLimitHits =
        (currentMetrics mon e.provider).rateLimitHits +
          (if e.success = false ∧ isRateLimitText e.error = true then 1 else 0)) ∧
    (generateReadme ["OpenRouter"] envRL emptyMonitor).1 =
      GenResult.exhausted "All AI providers failed. Last error: RATE_LIMIT_EXCEEDED" ∧
    containsSeg ("All AI providers failed. Last error: RATE_LIMIT_EXCEEDED").data
      ("RATE_LIMIT_EXCEEDED").data = true ∧
    (currentMetrics (generateReadme ["OpenRouter"] envRL emptyMonitor).2.1
      "OpenRouter").rateLimitHits = 0 :=
  ⟨recordEvent_rateLimitHits, C1_run_eval.1, by decide, C1_run_eval.2⟩

/-- C1 counterexample: the matching is NOT case-insensitive — a failure with
error text "Rate Limit reached" (which contains "rate limit" up to case)
leaves `rateLimitHits` at 0 — and after exhausting a provider that always
raises the rate-limited error, `rateLimitHits` is 0, not 1 as claimed. -/
theorem C1_counterexample :
    (currentMetrics (recordEvent emptyMonitor
        { provider := "P", success := false, responseTime := 0,
          error := some "Rate Limit reached", timestamp := 0 }) "P").rateLimitHits = 0 ∧
    (currentMetrics (generateReadme ["OpenRouter"] envRL emptyMonitor).2.1
      "OpenRouter").rateLimitHits = 0 ∧
    (0 : Nat) ≠ 1 :=
  ⟨by decide, C1_run_eval.2, by decide⟩

end ReadmeGen
